import Mathlib

/-!
# QCCL peer-to-peer engine: host library and device copy kernel

A shallow embedding of `LibraryQCCL/qccl_lib.cc`.

* Machine integers are natural numbers; `uint32_t` arithmetic is reduced with `u32`.
* Pointers are byte addresses (natural numbers); `p + k` on a `T *` is `p + sizeof(T) * k`.
* Device memory is a map from byte addresses to bytes.
-/

namespace QCCL

/-! ## Machine arithmetic and memory -/

/-- Reduction of a natural number to a `uint32_t`. -/
def u32 (n : Nat) : Nat := n % 2 ^ 32

/-- One byte of memory. -/
abbrev Byte := Fin 256

/-- Byte-addressed memory. -/
abbrev Mem := Nat → Byte

/-- The macro `LOAD(addr)`, that is `(addr)[0]`, for a word of `w` bytes (little-endian). -/
def LOAD (mem : Mem) (addr : Nat) : Nat → Nat
  | 0 => 0
  | w + 1 => (mem addr).val + 256 * LOAD mem (addr + 1) w

/-- The macro `STORE(x, addr)` for a word of `w` bytes (little-endian). -/
def STORE (x : Nat) (mem : Mem) (addr : Nat) : Nat → Mem
  | 0 => mem
  | w + 1 =>
    STORE (x / 256) (Function.update mem addr ⟨x % 256, Nat.mod_lt x (by decide)⟩) (addr + 1) w

/-! ## Transfer descriptors -/

/-- The record `struct P2PWorkItem`: one side of an exchange. -/
structure P2PWorkItem where
  /-- send/recv peer (`uint32_t`) -/
  peer : Nat
  /-- buffer size in bytes (`uint32_t`) -/
  size : Nat
  /-- address of the exchange slot-pair (`void **`) -/
  exchangeBuf : Nat
  /-- send/recv buffer (`void *`) -/
  dataBuf : Nat
  deriving DecidableEq, Repr

/-- The record `struct WorkInfo`: one transfer descriptor. -/
structure WorkInfo where
  recvItem : P2PWorkItem
  sendItem : P2PWorkItem
  /-- target buffer address obtained from the receiver (`void *`) -/
  targetBuf : Nat
  deriving DecidableEq, Repr

/-! ## Device side: the copy loops of `rcclKernel` -/

/-- Global memory as seen by one kernel, together with the record of every `STORE` executed
so far (address and width in bytes, oldest first). The record is ghost state: no load or
branch of the program depends on it. -/
structure DevState where
  mem : Mem
  stores : List (Nat × Nat)

/-- The load loop of `copyMainLoop`:
`for(i = 0; i < NumRegs/2; i++, src_ofs += BlockSz*2)`, with `n` iterations left. -/
def loadLoop (W BlockSz : Nat) (Check : Bool) (srcBuf nwords : Nat) (mem : Mem) :
    Nat → Nat → Nat → List Nat → List Nat
  | 0, _, _, regs => regs
  | n + 1, i, src_ofs, regs =>
    let regs1 :=
      if !Check || decide (src_ofs < nwords) then
        regs.set (2 * i) (LOAD mem (srcBuf + W * src_ofs) W)
      else regs
    let regs2 :=
      if !Check || decide (u32 (src_ofs + 1) < nwords) then
        regs1.set (2 * i + 1) (LOAD mem (srcBuf + W * src_ofs + W) W)
      else regs1
    loadLoop W BlockSz Check srcBuf nwords mem n (i + 1) (u32 (src_ofs + u32 (BlockSz * 2))) regs2

/-- The store loop of `copyMainLoop`:
`for(i = 0; i < NumRegs/2; i++, ofs += BlockSz*2)`, with `n` iterations left.
Returns the advanced `ofs` and the new device state. -/
def storeLoop (W BlockSz : Nat) (Check : Bool) (targetBuf nwords : Nat) (regs : List Nat) :
    Nat → Nat → Nat → DevState → Nat × DevState
  | 0, _, ofs, st => (ofs, st)
  | n + 1, i, ofs, st =>
    let st1 : DevState :=
      if !Check || decide (ofs < nwords) then
        { mem := STORE (regs.getD (2 * i) 0) st.mem (targetBuf + W * ofs) W,
          stores := st.stores ++ [(targetBuf + W * ofs, W)] }
      else st
    let st2 : DevState :=
      if !Check || decide (u32 (ofs + 1) < nwords) then
        { mem := STORE (regs.getD (2 * i + 1) 0) st1.mem (targetBuf + W * ofs + W) W,
          stores := st1.stores ++ [(targetBuf + W * ofs + W, W)] }
      else st1
    storeLoop W BlockSz Check targetBuf nwords regs n (i + 1) (u32 (ofs + u32 (BlockSz * 2))) st2

/-- The outer loop of `copyMainLoop`: `for(s = 0; s < niters; s++)`, with `n` iterations left;
`regs` lives across iterations; `if(!UseOuterLoop) break;` ends the loop after the first one. -/
def copyIters (W BlockSz NumRegs : Nat) (UseOuterLoop Check : Bool)
    (srcBuf targetBuf nwords : Nat) : Nat → Nat → List Nat → DevState → DevState
  | 0, _, _, st => st
  | n + 1, ofs, regs, st =>
    let regs1 := loadLoop W BlockSz Check srcBuf nwords st.mem (NumRegs / 2) 0 ofs regs
    let r := storeLoop W BlockSz Check targetBuf nwords regs1 (NumRegs / 2) 0 ofs st
    if !UseOuterLoop then r.2
    else copyIters W BlockSz NumRegs UseOuterLoop Check srcBuf targetBuf nwords n r.1 regs1 r.2

/-- The function `copyMainLoop<Word, BlockSz, NumRegs, UseOuterLoop, Check>(ofs, niters,
nwords)` for one lane; `W = sizeof(Word)`. The register file starts out as zeros (it is
uninitialised in the source; a register is only ever stored under the condition under which
it was loaded). The closing `if(s_workInfo.recvItem.peer == 0)` has an empty body. -/
def copyMainLoop (W BlockSz NumRegs : Nat) (UseOuterLoop Check : Bool) (s_workInfo : WorkInfo)
    (ofs niters nwords : Nat) (st : DevState) : DevState :=
  copyIters W BlockSz NumRegs UseOuterLoop Check s_workInfo.sendItem.dataBuf s_workInfo.targetBuf
    nwords niters ofs (List.replicate NumRegs 0) st

/-- Phase B of `rcclKernel<BlockSz, NumRegs>` for lane `tid` (source lines 317 to 374):
the wide main pass followed by the bounds-checked 32-bit remainder pass. -/
def rcclKernel_copy (BlockSz NumRegs : Nat) (s_workInfo : WorkInfo) (tid : Nat)
    (st : DevState) : DevState :=
  let bytes := s_workInfo.sendItem.size
  let nwords := bytes / 8
  let niters := nwords / u32 (BlockSz * NumRegs)
  let st1 := copyMainLoop 8 BlockSz NumRegs true false s_workInfo (u32 (tid * 2)) niters 0 st
  let bytesPerIter := u32 (BlockSz * NumRegs * 8)
  let nwords32 := bytes / 4
  let ofs := u32 (u32 (tid * 2) + u32 (niters * bytesPerIter) / 4)
  copyMainLoop 4 BlockSz (NumRegs * 2) false true s_workInfo ofs 1 nwords32 st1

/-- Phase B run by every lane of a group in turn, lanes `0 .. BlockSz-1`. The lanes of a group
only read the send buffer and only write the target buffer. -/
def rcclKernel_copyAll (BlockSz NumRegs : Nat) (s_workInfo : WorkInfo) (st : DevState) :
    DevState :=
  (List.range BlockSz).foldl (fun s tid => rcclKernel_copy BlockSz NumRegs s_workInfo tid s) st

/-- The group width `GpuCommLib::s_numWorkThreads`; `run` launches
`rcclKernel<s_numWorkThreads, s_numRegsPerThread>`. -/
def s_numWorkThreads : Nat := 512

/-- The register blocking factor `GpuCommLib::s_numRegsPerThread`. -/
def s_numRegsPerThread : Nat := 24

/-! ## Host side: `class GpuCommLib` -/

/-- Reduction of a natural number to a `size_t`. -/
def u64 (n : Nat) : Nat := n % 2 ^ 64

/-- Modelled from the spec: the result codes of the host-facing operations (the enumeration is
declared in `qccl_lib.h`). -/
inductive QCCL_Result where
  | OK
  | NotInitialized
  | InvalidParams
  | Fatal
  deriving DecidableEq, Repr

/-- Ways in which a host call does not return.

Modelled from the spec: the macro `CHK` and the function `ThrowError` are declared in headers
that are not among the sources; by the spec a failed runtime call and a missing peer-access
capability are fatal conditions, which abort the process. -/
inductive Fault where
  /-- a runtime call under `CHK(...)` failed, or `ThrowError` was reached -/
  | fatal
  /-- an access outside a container or an allocation: the behaviour is undefined -/
  | undefinedBehaviour
  deriving DecidableEq, Repr

/-- The value of `sizeof(WorkInfo)`: two 24-byte items and one pointer. -/
def sizeofWorkInfo : Nat := 56

/-- The constant `GpuCommLib::s_defNumWorkItems`. -/
def s_defNumWorkItems : Nat := 8

/-- The record `struct GpuCommLib::ThreadInfo`: one device context. -/
structure ThreadInfo where
  gpuId : Int
  workBuf : Nat
  exchangeBuf : Nat
  numDevWorkItems : Nat
  workItems : List WorkInfo
  deriving DecidableEq, Repr

/-- The data members of `class GpuCommLib`. -/
structure GpuCommLib where
  m_initialized : Bool
  m_infos : List ThreadInfo
  deriving DecidableEq, Repr

/-- The device runtime as far as the library observes it. The calls `cudaMemset`, `cudaFree`,
`cudaDeviceEnablePeerAccess`, `cudaMemcpyAsync` within the allocation and the kernel launch
are taken to succeed. -/
structure Runtime where
  /-- number of devices; the runtime reports it as an `int` -/
  deviceCount : Nat
  /-- the device count fits an `int` -/
  deviceCount_lt : deviceCount < 2 ^ 31
  /-- the `enable` flag returned by `cudaDeviceCanAccessPeer(&enable, device, peer)` -/
  canAccessPeer : Int → Nat → Bool
  /-- address returned by the `k`-th call of `hipExtMallocWithFlags`, for `bytes` bytes -/
  malloc : Nat → Nat → Option Nat

/-- The call `cudaSetDevice(id)` succeeds exactly for the ids of existing devices. -/
def Runtime.cudaSetDevice (rt : Runtime) (id : Int) : Bool :=
  decide (0 ≤ id ∧ id < (rt.deviceCount : Int))

/-- The singleton `GpuCommLib::i()` together with the number of allocations made so far. -/
structure Process where
  lib : GpuCommLib
  nAllocs : Nat
  deriving DecidableEq, Repr

/-- The method `GpuCommLib::allocWorkBuf(pinfo, num)`; `k` counts the allocations made so
far. -/
def allocWorkBuf (rt : Runtime) (pinfo : ThreadInfo) (num : Nat) (k : Nat) :
    Except Fault (ThreadInfo × Nat) :=
  match rt.malloc k (u64 (sizeofWorkInfo * num)) with
  | none => .error .fatal
  | some p => .ok ({ pinfo with numDevWorkItems := num, workBuf := p }, k + 1)

/-- A value-initialised `ThreadInfo`, as appended by `m_infos.resize`. -/
def ThreadInfo.zero : ThreadInfo :=
  { gpuId := 0, workBuf := 0, exchangeBuf := 0, numDevWorkItems := 0, workItems := [] }

/-- The effect of `m_infos.resize(n)`. -/
def resize (infos : List ThreadInfo) (n : Nat) : List ThreadInfo :=
  infos.take n ++ List.replicate (n - infos.length) ThreadInfo.zero

/-- The first loop of `init`, over the contexts still to be set up; `i` is the running id and
`k` the allocation count. -/
def initInfos (rt : Runtime) (exchangeSz : Nat) :
    List ThreadInfo → Int → Nat → Except Fault (List ThreadInfo × Nat)
  | [], _, k => .ok ([], k)
  | info :: rest, i, k =>
    if rt.cudaSetDevice i then
      match rt.malloc k (u64 (exchangeSz * 2)) with
      | none => .error .fatal
      | some ex =>
        match allocWorkBuf rt { info with gpuId := i, exchangeBuf := ex } s_defNumWorkItems
            (k + 1) with
        | .error f => .error f
        | .ok (info1, k1) =>
          match initInfos rt exchangeSz rest (i + 1) k1 with
          | .error f => .error f
          | .ok (rest1, k2) => .ok (info1 :: rest1, k2)
    else .error .fatal

/-- The second loop of `init`: every context can select its device and can access every other
device `j < nGpus`. The loop is reached only when the first loop has selected `nGpus` devices,
so `nGpus` is below `2 ^ 31` and the `uint32_t` counter `j` does not wrap. -/
def peersOk (rt : Runtime) (nGpus : Nat) (infos : List ThreadInfo) : Bool :=
  infos.all fun info =>
    rt.cudaSetDevice info.gpuId &&
      (List.range nGpus).all fun j =>
        decide (info.gpuId = (j : Int)) || rt.canAccessPeer info.gpuId j

/-- The method `GpuCommLib::init(nGpus)`. -/
def init (rt : Runtime) (nGpus : Nat) (w : Process) : Except Fault (QCCL_Result × Process) :=
  if w.lib.m_initialized then .ok (.OK, w)
  else
    match initInfos rt (u64 (nGpus * 8)) (resize w.lib.m_infos nGpus) 0 w.nAllocs with
    | .error f => .error f
    | .ok (infos, k) =>
      if peersOk rt nGpus infos then
        .ok (.OK, { lib := { m_initialized := true, m_infos := infos }, nAllocs := k })
      else .error .fatal

/-- The method `GpuCommLib::enqueueSendRecv(ID, recvPeer, recvBuf, recvSize, sendPeer, sendBuf,
sendSize)`. The out-of-range access `m_infos[sendPeer]` is undefined behaviour. -/
def enqueueSendRecv (e : GpuCommLib)
    (ID recvPeer recvBuf recvSize sendPeer sendBuf sendSize : Nat) :
    Except Fault (QCCL_Result × GpuCommLib) :=
  if !e.m_initialized then .ok (.NotInitialized, e)
  else if ID ≥ e.m_infos.length then .ok (.InvalidParams, e)
  else
    match e.m_infos[ID]?, e.m_infos[sendPeer]? with
    | some info, some peerInfo =>
      let w : WorkInfo :=
        { recvItem :=
            { peer := recvPeer, size := u32 recvSize,
              exchangeBuf := info.exchangeBuf + 8 * u32 (recvPeer * 2), dataBuf := recvBuf },
          sendItem :=
            { peer := sendPeer, size := u32 sendSize,
              exchangeBuf := peerInfo.exchangeBuf + 8 * u32 (ID * 2), dataBuf := sendBuf },
          targetBuf := 0 }
      .ok (.OK, { e with
        m_infos := e.m_infos.set ID { info with workItems := info.workItems ++ [w] } })
    | _, _ => .error .undefinedBehaviour

/-- Work put on a stream by `run`. -/
inductive StreamOp where
  /-- the call `cudaMemcpyAsync(dst, items, sizeof(WorkInfo) * items.length,
  cudaMemcpyHostToDevice, stream)` -/
  | memcpyHostToDevice (dst : Nat) (items : List WorkInfo) (stream : Nat)
  /-- the launch `rcclKernel<BlockSz, NumRegs><<<nBlocks, BlockSz, 0, stream>>>(gworkInfo)` -/
  | launch (nBlocks BlockSz gworkInfo stream : Nat)
  deriving DecidableEq, Repr

/-- The reallocation step of `run`:
`if(info.numDevWorkItems < info.workItems.size()) { cudaFree; allocWorkBuf(...) }`. -/
def growWorkBuf (rt : Runtime) (info : ThreadInfo) (k : Nat) :
    Except Fault (ThreadInfo × Nat) :=
  if info.numDevWorkItems < info.workItems.length then
    allocWorkBuf rt info (u64 (info.numDevWorkItems * 3) / 2) k
  else .ok (info, k)

/-- The method `GpuCommLib::run(ID, stream)`. The access `m_infos[ID]` is not guarded; the
device buffer has room for `numDevWorkItems` descriptors, and copying more writes past the
allocation. -/
def run (rt : Runtime) (w : Process) (ID stream : Nat) :
    Except Fault (QCCL_Result × Process × List StreamOp) :=
  match w.lib.m_infos[ID]? with
  | none => .error .undefinedBehaviour
  | some info =>
    if rt.cudaSetDevice info.gpuId then
      match growWorkBuf rt info w.nAllocs with
      | .error f => .error f
      | .ok (info1, k) =>
        let nBlocks := u32 info1.workItems.length
        if info1.numDevWorkItems < nBlocks then .error .undefinedBehaviour
        else
          .ok (.OK,
            { lib :=
                { w.lib with m_infos := w.lib.m_infos.set ID { info1 with workItems := [] } },
              nAllocs := k },
            [.memcpyHostToDevice info1.workBuf (info1.workItems.take nBlocks) stream,
             .launch nBlocks 512 info1.workBuf stream])
    else .error .fatal

/-! ## Host calls as a step relation -/

/-- One host call that returns, or allocations made by other code of the process. -/
inductive Step (rt : Runtime) : Process → Process → Prop where
  | init (w w1 : Process) (nGpus : Nat) (r : QCCL_Result) :
      init rt nGpus w = .ok (r, w1) → Step rt w w1
  | enqueue (w : Process) (e1 : GpuCommLib)
      (ID recvPeer recvBuf recvSize sendPeer sendBuf sendSize : Nat) (r : QCCL_Result) :
      enqueueSendRecv w.lib ID recvPeer recvBuf recvSize sendPeer sendBuf sendSize =
        .ok (r, e1) →
      Step rt w { w with lib := e1 }
  | run (w w1 : Process) (ID stream : Nat) (r : QCCL_Result) (ops : List StreamOp) :
      run rt w ID stream = .ok (r, w1, ops) → Step rt w w1
  | alloc (w : Process) (n : Nat) : Step rt w { w with nAllocs := w.nAllocs + n }

/-- The process before any call: the default-constructed singleton. -/
def Process.fresh (k : Nat) : Process :=
  { lib := { m_initialized := false, m_infos := [] }, nAllocs := k }

/-- States of the process reachable by host calls. -/
def Reachable (rt : Runtime) (w : Process) : Prop :=
  ∃ k, Relation.ReflTransGen (Step rt) (Process.fresh k) w

/-- Address of the exchange array of device `i`. -/
def exchangeOf (e : GpuCommLib) (i : Nat) : Nat :=
  (e.m_infos.map fun info => info.exchangeBuf).getD i 0

/-- Pending descriptor list of device `i`. -/
def pendingOf (e : GpuCommLib) (i : Nat) : List WorkInfo :=
  (e.m_infos.map fun info => info.workItems).getD i []

/-! ## Device side: the descriptor load of `rcclKernel` -/

/-- The constant `s_num = sizeof(WorkInfo) / sizeof(uint64_t)` of `rcclKernel`. -/
def s_num : Nat := sizeofWorkInfo / 8

/-- The 64-bit words of a descriptor in memory order: `peer` and `size` share the first word
of each item, then `exchangeBuf`, then `dataBuf`; `targetBuf` is the last word. -/
def WorkInfo.toWords (w : WorkInfo) : List Nat :=
  [w.recvItem.peer + 2 ^ 32 * w.recvItem.size, w.recvItem.exchangeBuf, w.recvItem.dataBuf,
   w.sendItem.peer + 2 ^ 32 * w.sendItem.size, w.sendItem.exchangeBuf, w.sendItem.dataBuf,
   w.targetBuf]

/-- The device buffer, as 64-bit words, after the descriptors `items` were copied into it. -/
def deviceWords (items : List WorkInfo) : List Nat := items.flatMap WorkInfo.toWords

/-- The load step of `rcclKernel` for lane `tid` (source lines 300 to 304); `gworkInfo` is the
memory the kernel argument points to and `s_workInfo` the shared descriptor, both as 64-bit
words. -/
def rcclKernel_load (gworkInfo : List Nat) (tid : Nat) (s_workInfo : List Nat) : List Nat :=
  if tid < s_num then s_workInfo.set tid (gworkInfo.getD tid 0) else s_workInfo

/-- The load step run by every lane of the group with index `blockIdx`, up to the first
`__syncthreads()`. The source never reads `blockIdx.x`. -/
def rcclKernel_loadAll (BlockSz : Nat) (gworkInfo : List Nat) (_blockIdx : Nat)
    (s_workInfo : List Nat) : List Nat :=
  (List.range BlockSz).foldl (fun s tid => rcclKernel_load gworkInfo tid s) s_workInfo

/-! ## Device side: the pointer handshake of `rcclKernel` -/

/-- Control points of a lane inside `setupRecvPtrs`. -/
inductive RecvPc where
  /-- before `*(uint32_t *)(slot + 1) = 0` -/
  | reset
  /-- inside `while((void *)atomicAdd((uint64_t *)slot, 0) != nullptr);` -/
  | spin
  /-- after the loop, before `*slot = dataBuf ^ slot` -/
  | publish
  /-- the function has returned -/
  | done
  deriving DecidableEq, Repr

/-- One memory access of lane `ltid` in `setupRecvPtrs(ltid)`: the flag reset, one read of the
spin loop, or the store of the encoded pointer. `slot + 1` on a `void **` is 8 bytes further;
`atomicAdd(p, 0)` is a read. Lanes other than 0 skip the body. -/
def setupRecvPtrs_step (s_workInfo : WorkInfo) (ltid : Nat) (pc : RecvPc) (mem : Mem) :
    RecvPc × Mem :=
  if ltid = 0 then
    match pc with
    | .reset => (.spin, STORE 0 mem (s_workInfo.recvItem.exchangeBuf + 8) 4)
    | .spin =>
      if LOAD mem s_workInfo.recvItem.exchangeBuf 8 ≠ 0 then (.spin, mem) else (.publish, mem)
    | .publish =>
      (.done,
        STORE (s_workInfo.recvItem.dataBuf ^^^ s_workInfo.recvItem.exchangeBuf) mem
          s_workInfo.recvItem.exchangeBuf 8)
    | .done => (.done, mem)
  else (.done, mem)

/-- Control points of a lane inside `setupSendPtrs`. -/
inductive SendPc where
  /-- inside `while (true) { ptr = atomicAdd(slot, 0); if (ptr != nullptr) break; }` -/
  | spin
  /-- after the loop with `ptr` read, before `s_workInfo.targetBuf = ptr ^ slot` -/
  | decode (ptr : Nat)
  /-- before `*slot = nullptr` -/
  | clear
  /-- the function has returned -/
  | done
  deriving DecidableEq, Repr

/-- One step of lane `ltid` in `setupSendPtrs(ltid)`: one read of the spin loop, the decoding
into `s_workInfo.targetBuf`, or the store of the empty value. Lanes other than 0 skip the
body. -/
def setupSendPtrs_step (s_workInfo : WorkInfo) (ltid : Nat) (pc : SendPc) (mem : Mem) :
    SendPc × WorkInfo × Mem :=
  if ltid = 0 then
    match pc with
    | .spin =>
      if LOAD mem s_workInfo.sendItem.exchangeBuf 8 ≠ 0 then
        (.decode (LOAD mem s_workInfo.sendItem.exchangeBuf 8), s_workInfo, mem)
      else (.spin, s_workInfo, mem)
    | .decode ptr =>
      (.clear, { s_workInfo with targetBuf := ptr ^^^ s_workInfo.sendItem.exchangeBuf }, mem)
    | .clear => (.done, s_workInfo, STORE 0 mem s_workInfo.sendItem.exchangeBuf 8)
    | .done => (.done, s_workInfo, mem)
  else (.done, s_workInfo, mem)

/-- Lane `ltid` of `setupSendPtrs` running alone for `n` steps. -/
def setupSendPtrs_run (ltid : Nat) :
    Nat → WorkInfo → SendPc → Mem → SendPc × WorkInfo × Mem
  | 0, s_workInfo, pc, mem => (pc, s_workInfo, mem)
  | n + 1, s_workInfo, pc, mem =>
    setupSendPtrs_run ltid n (setupSendPtrs_step s_workInfo ltid pc mem).2.1
      (setupSendPtrs_step s_workInfo ltid pc mem).1 (setupSendPtrs_step s_workInfo ltid pc mem).2.2

/-! ### One exchange cell shared by a publisher and a consumer -/

/-- State of one pointer-exchange cell with its two parties over several rounds (kernel
launches): lane 0 of the receiving group runs `setupRecvPtrs` with the descriptor of round
`pubIdx`, lane 0 of the sending group's second wavefront runs `setupSendPtrs` on its shared
descriptor `s_workInfo` of round `conIdx`. -/
structure CellState where
  mem : Mem
  pubIdx : Nat
  pubPc : RecvPc
  conIdx : Nat
  conPc : SendPc
  s_workInfo : WorkInfo

/-- The party that takes the next step. -/
inductive CellActor where
  | publisher
  | consumer
  deriving DecidableEq, Repr

/-- One step of one party: a step of its handshake function, or, once that has returned, the
start of its next round with the next descriptor (`pubs` for the publisher, `cons` for the
consumer). The barriers, the copy and the completion phase that lie between two rounds do not
access the cell; they only rule out some of the orders of steps allowed here. -/
def cellStep (pubs cons : List WorkInfo) (a : CellActor) (s : CellState) : CellState :=
  match a with
  | .publisher =>
    if s.pubPc = .done then
      if s.pubIdx + 1 < pubs.length then { s with pubIdx := s.pubIdx + 1, pubPc := .reset }
      else s
    else
      match pubs[s.pubIdx]? with
      | some w =>
        { s with
          pubPc := (setupRecvPtrs_step w 0 s.pubPc s.mem).1,
          mem := (setupRecvPtrs_step w 0 s.pubPc s.mem).2 }
      | none => s
  | .consumer =>
    if s.conPc = .done then
      match cons[s.conIdx + 1]? with
      | some v => { s with conIdx := s.conIdx + 1, conPc := .spin, s_workInfo := v }
      | none => s
    else
      { s with
        conPc := (setupSendPtrs_step s.s_workInfo 0 s.conPc s.mem).1,
        s_workInfo := (setupSendPtrs_step s.s_workInfo 0 s.conPc s.mem).2.1,
        mem := (setupSendPtrs_step s.s_workInfo 0 s.conPc s.mem).2.2 }

/-- The step relation of the cell: some party takes a step. -/
def CellStep (pubs cons : List WorkInfo) (s t : CellState) : Prop :=
  ∃ a, t = cellStep pubs cons a s

/-- The state at the start of the first round; `v` is the consumer's first descriptor. -/
def cellInit (mem : Mem) (v : WorkInfo) : CellState :=
  { mem := mem, pubIdx := 0, pubPc := .reset, conIdx := 0, conPc := .spin, s_workInfo := v }

/-- The parties take steps in the order given by `sched`. -/
def cellRun (pubs cons : List WorkInfo) (sched : List CellActor) (s : CellState) : CellState :=
  sched.foldl (fun s a => cellStep pubs cons a s) s

/-- Number of publications made so far. -/
def pubCount (s : CellState) : Nat := s.pubIdx + if s.pubPc = .done then 1 else 0

/-- Number of published values consumed (cleared) so far. -/
def conCount (s : CellState) : Nat := s.conIdx + if s.conPc = .done then 1 else 0

/-! ## Device side: copy and completion as the steps of a lane -/

/-- Control points of a lane of `rcclKernel` after the second `__syncthreads()`. -/
inductive KernelPc where
  /-- before the two calls of `copyMainLoop` -/
  | copy
  /-- after `__threadfence_system()`, before `sendDone[0] = 11111` -/
  | signal
  /-- inside `while(atomicAdd((uint32_t *)recvDone, 0u) != 11111u);` -/
  | wait
  /-- the lane has returned -/
  | done
  deriving DecidableEq, Repr

/-- One step of lane `tid` after the second barrier (source lines 317 to 389): its whole copy
phase, the store of the sentinel into `sendDone = sendItem.exchangeBuf + 1`, or one read of
`recvDone = recvItem.exchangeBuf + 1` in the spin of lane 0. The fence makes the stores of the
copy visible before the next step and has no effect of its own. -/
def rcclKernel_step (BlockSz NumRegs : Nat) (s_workInfo : WorkInfo) (tid : Nat) (pc : KernelPc)
    (st : DevState) : KernelPc × DevState :=
  match pc with
  | .copy => (.signal, rcclKernel_copy BlockSz NumRegs s_workInfo tid st)
  | .signal =>
    (if tid = 0 then .wait else .done,
      { mem := STORE 11111 st.mem (s_workInfo.sendItem.exchangeBuf + 8) 4,
        stores := st.stores ++ [(s_workInfo.sendItem.exchangeBuf + 8, 4)] })
  | .wait =>
    if LOAD st.mem (s_workInfo.recvItem.exchangeBuf + 8) 4 ≠ 11111 then (.wait, st)
    else (.done, st)
  | .done => (.done, st)

/-- The sentinel store of every lane in `lanes`, in turn. -/
def rcclKernel_signalAll (BlockSz NumRegs : Nat) (s_workInfo : WorkInfo) (lanes : List Nat)
    (st : DevState) : DevState :=
  lanes.foldl (fun s tid => (rcclKernel_step BlockSz NumRegs s_workInfo tid .signal s).2) st

/-- A sender group and lane 0 of its counterpart receiver group after the handshake: the
device memory, the control point of every lane of the sender group, and the control point of
lane 0 of the receiver group. -/
structure PairState where
  dev : DevState
  sender : List KernelPc
  receiver : KernelPc

/-- The lane that takes the next step. -/
inductive PairActor where
  | senderLane (tid : Nat)
  | receiverLane0
  deriving DecidableEq, Repr

/-- One step of one lane; `wA` is the shared descriptor of the sender group and `wB` that of
the receiver group. -/
def pairStep (BlockSz NumRegs : Nat) (wA wB : WorkInfo) (a : PairActor) (s : PairState) :
    PairState :=
  match a with
  | .senderLane tid =>
    match s.sender[tid]? with
    | some pc =>
      { s with
        dev := (rcclKernel_step BlockSz NumRegs wA tid pc s.dev).2,
        sender := s.sender.set tid (rcclKernel_step BlockSz NumRegs wA tid pc s.dev).1 }
    | none => s
  | .receiverLane0 =>
    { s with
      dev := (rcclKernel_step BlockSz NumRegs wB 0 s.receiver s.dev).2,
      receiver := (rcclKernel_step BlockSz NumRegs wB 0 s.receiver s.dev).1 }

/-- An interleaving: the lanes take steps in the order given by `sched`. -/
def pairRun (BlockSz NumRegs : Nat) (wA wB : WorkInfo) (sched : List PairActor)
    (s : PairState) : PairState :=
  sched.foldl (fun s a => pairStep BlockSz NumRegs wA wB a s) s

/-- The state in which every lane of the sender group is about to copy and lane 0 of the
receiver group, having stored its own sentinel, waits for its receive-side flag. -/
def pairInit (BlockSz : Nat) (mem : Mem) : PairState :=
  { dev := { mem := mem, stores := [] }, sender := List.replicate BlockSz .copy,
    receiver := .wait }

/-- Invariant of one cell at address `c` whose publisher runs the descriptors `pubs`: the
publications are at most one ahead of the consumptions; the cell is empty when they are level
and holds the encoded destination of the pending round otherwise; the publisher stands before
its store only when they are level; the consumer holds a value only when one is pending, and
the target it has resolved is the destination of its round. -/
def CellInv (c : Nat) (pubs : List WorkInfo) (s : CellState) : Prop :=
  s.s_workInfo.sendItem.exchangeBuf = c ∧
  ((pubCount s = conCount s ∧ LOAD s.mem c 8 = 0) ∨
    (pubCount s = conCount s + 1 ∧
      ∃ w, pubs[conCount s]? = some w ∧ LOAD s.mem c 8 = w.recvItem.dataBuf ^^^ c)) ∧
  (s.pubPc = .publish → pubCount s = conCount s) ∧
  (∀ ptr, s.conPc = .decode ptr → pubCount s = conCount s + 1 ∧ ptr = LOAD s.mem c 8) ∧
  (s.conPc = .clear → pubCount s = conCount s + 1 ∧
    ∃ w, pubs[s.conIdx]? = some w ∧ s.s_workInfo.targetBuf = w.recvItem.dataBuf) ∧
  (s.conPc = .done →
    ∃ w, pubs[s.conIdx]? = some w ∧ s.s_workInfo.targetBuf = w.recvItem.dataBuf)

/-- The descriptors of the rounds of one cell at address `c` are well formed: every receiving
descriptor names the cell and a 64-bit destination other than the address of the cell, and
every sending descriptor names the cell. -/
def CellRounds (c : Nat) (pubs cons : List WorkInfo) : Prop :=
  c < 2 ^ 64 ∧
  (∀ w ∈ pubs, w.recvItem.exchangeBuf = c ∧ w.recvItem.dataBuf < 2 ^ 64 ∧
    w.recvItem.dataBuf ≠ c) ∧
  (∀ v ∈ cons, v.sendItem.exchangeBuf = c)

/-! ## The store record of the copy phase -/

/-- Store record `e = (address, width)` covers byte address `x`. -/
def covers (x : Nat) (e : Nat × Nat) : Bool := decide (e.1 ≤ x ∧ x < e.1 + e.2)

/-- Some recorded store covers byte address `x`. -/
def Covered (log : List (Nat × Nat)) (x : Nat) : Prop := ∃ e ∈ log, covers x e = true

/-- Invariant of the copy phase relative to the memory `m0` before the copy. -/
def Good (m0 : Mem) (src tgt S : Nat) (st : DevState) : Prop :=
  (∀ e ∈ st.stores, tgt ≤ e.1 ∧ e.1 + e.2 ≤ tgt + S) ∧
  (∀ x, ¬ Covered st.stores x → st.mem x = m0 x) ∧
  ((src + S ≤ tgt ∨ tgt + S ≤ src) →
    ∀ x, Covered st.stores x → st.mem x = m0 (src + (x - tgt)))

/-- Word offsets stored by one pass of `storeLoop` (`n` register pairs, starting at `ofs`,
stride `D`), in program order and without 32-bit wrap-around. -/
def iterWords (Check : Bool) (nwords D : Nat) : Nat → Nat → List Nat
  | 0, _ => []
  | n + 1, ofs =>
    (if !Check || decide (ofs < nwords) then [ofs] else []) ++
      ((if !Check || decide (ofs + 1 < nwords) then [ofs + 1] else []) ++
        iterWords Check nwords D n (ofs + D))

/-- The store record of width `W` at word offset `k` of the target buffer. -/
def wordStore (tgt W k : Nat) : Nat × Nat := (tgt + W * k, W)

/-- Word offsets stored by `n` iterations of the outer loop, `h` register pairs each. -/
def loopWords (Check : Bool) (nwords D h : Nat) : Nat → Nat → List Nat
  | 0, _ => []
  | n + 1, ofs => iterWords Check nwords D h ofs ++ loopWords Check nwords D h n (ofs + D * h)

/-- Stores of lane `tid` for a payload of `S` bytes: the 64-bit words of the main pass, then the
32-bit words of the remainder pass. -/
def laneStores (tgt S tid : Nat) : List (Nat × Nat) :=
  (loopWords false 0 1024 12 (S / 8 / 12288) (2 * tid)).map (wordStore tgt 8) ++
    (iterWords true (S / 4) 1024 24 (2 * tid + 24576 * (S / 8 / 12288))).map (wordStore tgt 4)

/-- The lane whose store reaches byte offset `x` of a payload of `S` bytes. -/
def writerLane (S x : Nat) : Nat :=
  if x / 8 < 12288 * (S / 8 / 12288) then x / 8 % 1024 / 2 else x / 4 % 1024 / 2

/-! ## Concrete inputs -/

/-- A memory with non-zero bytes `a mod 251 + 1` below address `2 ^ 22` and zeros above. -/
def exMem : Mem := fun a => if a < 2 ^ 22 then ⟨a % 251 + 1, by omega⟩ else 0

/-- A descriptor sending `S` bytes from address `0` to the target address `2 ^ 22`. -/
def exWork (S : Nat) : WorkInfo :=
  { recvItem := { peer := 1, size := S, exchangeBuf := 2 ^ 30 + 16, dataBuf := 2 ^ 23 },
    sendItem := { peer := 1, size := S, exchangeBuf := 2 ^ 31, dataBuf := 0 },
    targetBuf := 2 ^ 22 }

/-- A runtime with two devices, full peer access and an allocator handing out pages. -/
def exRuntime : Runtime :=
  { deviceCount := 2, deviceCount_lt := by decide, canAccessPeer := fun _ _ => true,
    malloc := fun k _ => some (4096 * (k + 1)) }

/-- The process after `init(2)` on `exRuntime`. -/
def exInitialized : Process :=
  { lib :=
      { m_initialized := true,
        m_infos :=
          [{ gpuId := 0, workBuf := 8192, exchangeBuf := 4096, numDevWorkItems := 8,
             workItems := [] },
           { gpuId := 1, workBuf := 16384, exchangeBuf := 12288, numDevWorkItems := 8,
             workItems := [] }] },
    nAllocs := 4 }

/-- The engine after `n` further calls `enqueueSendRecv(0, 1, 65536, 64, 1, 131072, 64)`. -/
def enqueueN (e : GpuCommLib) : Nat → GpuCommLib
  | 0 => e
  | n + 1 =>
    match enqueueSendRecv (enqueueN e n) 0 1 65536 64 1 131072 64 with
    | .ok (_, e1) => e1
    | .error _ => enqueueN e n

/-- The process after `init(2)` and thirteen enqueue calls for device `0`. -/
def exPending13 : Process := { exInitialized with lib := enqueueN exInitialized.lib 13 }

/-- The descriptor of the counterpart group: it receives into the buffer at `p` through the
cell at `2 ^ 31`, the cell that `exWork` sends through, and sends nothing back. -/
def exPeer (p : Nat) : WorkInfo :=
  { recvItem := { peer := 1, size := 1024, exchangeBuf := 2 ^ 31, dataBuf := p },
    sendItem := { peer := 1, size := 0, exchangeBuf := 2 ^ 30 + 16, dataBuf := 2 ^ 24 },
    targetBuf := 0 }

/-- The descriptor `exWork 1024` as the host enqueues it, with a null `targetBuf`. -/
def exSend : WorkInfo := { exWork 1024 with targetBuf := 0 }

/-- An interleaving in which the first wavefront (lanes 0 to 63) of the sender group copies
and stores the sentinel, and then lane 0 of the receiver group reads its flag. -/
def exEarlySchedule : List PairActor :=
  (List.range 64).map PairActor.senderLane ++
    ((List.range 64).map PairActor.senderLane ++ [PairActor.receiverLane0])

/-- An interleaving in which the lanes 0 to 127 of the sender group, which own the 1024 bytes
of the payload of `exWork 1024`, copy; lane 0 alone stores the sentinel; and then lane 0 of the
receiver group reads its flag. -/
def exLateSchedule : List PairActor :=
  (List.range 128).map PairActor.senderLane ++
    [PairActor.senderLane 0, PairActor.receiverLane0]

/-- The state after `exLateSchedule`: the payload of `exWork 1024` has been copied and the
receiver has seen the sentinel, while lanes 1 to 127 of the sender have yet to store it. -/
def exLateState : PairState :=
  pairRun s_numWorkThreads s_numRegsPerThread (exWork 1024) (exPeer (2 ^ 22)) exLateSchedule
    (pairInit s_numWorkThreads exMem)

/-- The memory after the receiver, in its next round with the destination `2 ^ 23`, has reset
its completion flag (the first step of `setupRecvPtrs`). -/
def exResetMem : Mem := (setupRecvPtrs_step (exPeer (2 ^ 23)) 0 .reset exLateState.dev.mem).2

/-- The device state after lane 1 of the sender group, still in the first round, has then
stored its sentinel. -/
def exLateStore : DevState :=
  (rcclKernel_step s_numWorkThreads s_numRegsPerThread (exWork 1024) 1 .signal
    { mem := exResetMem, stores := exLateState.dev.stores }).2

/-- A complete run of two handshake rounds of one cell. -/
def exTwoRounds : List CellActor :=
  [.publisher, .publisher, .publisher, .consumer, .consumer, .consumer,
   .publisher, .consumer, .publisher, .publisher, .publisher, .consumer, .consumer, .consumer]

/-! # Theorems -/

/-! ## Loads and stores -/

theorem STORE_outside (w : Nat) : ∀ (x : Nat) (mem : Mem) (a y : Nat),
    (y < a ∨ a + w ≤ y) → STORE x mem a w y = mem y := by
  induction w with
  | zero => intro x mem a y _; rfl
  | succ w ih =>
    intro x mem a y h
    simp only [STORE]
    rw [ih _ _ _ _ (by omega)]
    exact Function.update_noteq (by omega) _ _

theorem STORE_inside (w : Nat) : ∀ (x : Nat) (mem : Mem) (a j : Nat),
    j < w → (STORE x mem a w (a + j)).val = x / 256 ^ j % 256 := by
  induction w with
  | zero => intro x mem a j h; omega
  | succ w ih =>
    intro x mem a j h
    simp only [STORE]
    cases j with
    | zero =>
      rw [STORE_outside w _ _ _ _ (by omega)]
      simp
    | succ j =>
      have := ih (x / 256) (Function.update mem a ⟨x % 256, Nat.mod_lt x (by decide)⟩) (a + 1) j
        (by omega)
      rw [show a + (j + 1) = a + 1 + j by omega, this, Nat.div_div_eq_div_mul, pow_succ]
      congr 2
      ring

theorem LOAD_byte (w : Nat) : ∀ (mem : Mem) (a j : Nat),
    j < w → LOAD mem a w / 256 ^ j % 256 = (mem (a + j)).val := by
  induction w with
  | zero => intro mem a j h; omega
  | succ w ih =>
    intro mem a j h
    simp only [LOAD]
    cases j with
    | zero =>
      have := (mem a).isLt
      simp
    | succ j =>
      have h1 := ih mem (a + 1) j (by omega)
      have h2 := (mem a).isLt
      rw [pow_succ, mul_comm (256 ^ j) 256, ← Nat.div_div_eq_div_mul]
      rw [show ((mem a).val + 256 * LOAD mem (a + 1) w) / 256 = LOAD mem (a + 1) w by omega]
      rw [h1]
      congr 2
      omega

theorem STORE_LOAD (w : Nat) (m mem : Mem) (s a j : Nat) (h : j < w) :
    STORE (LOAD m s w) mem a w (a + j) = m (s + j) := by
  apply Fin.ext
  rw [STORE_inside w _ _ _ _ h, LOAD_byte w _ _ _ h]

theorem Good_init (m0 : Mem) (src tgt S : Nat) : Good m0 src tgt S ⟨m0, []⟩ := by
  refine ⟨?_, ?_, ?_⟩
  · intro e he; simp at he
  · intro x _; rfl
  · intro _ x hx
    obtain ⟨e, he, _⟩ := hx
    simp at he

theorem Good_src (m0 : Mem) (src tgt S : Nat) (st : DevState) (hg : Good m0 src tgt S st)
    (hd : src + S ≤ tgt ∨ tgt + S ≤ src) (y : Nat) (hy : y < S) :
    st.mem (src + y) = m0 (src + y) := by
  apply hg.2.1
  rintro ⟨e, he, hc⟩
  have := hg.1 e he
  simp only [covers, decide_eq_true_eq] at hc
  omega

theorem Good_store (m0 : Mem) (src tgt S W k : Nat) (m1 : Mem) (st : DevState)
    (hg : Good m0 src tgt S st) (hk : W * k + W ≤ S)
    (hm : (src + S ≤ tgt ∨ tgt + S ≤ src) → ∀ y, y < S → m1 (src + y) = m0 (src + y)) :
    Good m0 src tgt S
      { mem := STORE (LOAD m1 (src + W * k) W) st.mem (tgt + W * k) W,
        stores := st.stores ++ [(tgt + W * k, W)] } := by
  obtain ⟨h1, h2, h3⟩ := hg
  refine ⟨?_, ?_, ?_⟩
  · intro e he
    rcases List.mem_append.1 he with he | he
    · exact h1 e he
    · simp only [List.mem_singleton] at he
      subst he
      simp only
      omega
  · intro x hx
    have hx1 : ¬ Covered st.stores x := by
      rintro ⟨e, he, hc⟩
      exact hx ⟨e, List.mem_append_left _ he, hc⟩
    have hx2 : x < tgt + W * k ∨ tgt + W * k + W ≤ x := by
      by_contra hcon
      apply hx
      refine ⟨(tgt + W * k, W), by simp, ?_⟩
      simp only [covers, decide_eq_true_eq]
      omega
    simp only
    rw [STORE_outside W _ _ _ _ hx2]
    exact h2 x hx1
  · intro hd x hx
    simp only
    by_cases hin : tgt + W * k ≤ x ∧ x < tgt + W * k + W
    · obtain ⟨j, rfl⟩ : ∃ j, x = tgt + W * k + j := ⟨x - (tgt + W * k), by omega⟩
      rw [STORE_LOAD W _ _ _ _ _ (by omega)]
      rw [show src + W * k + j = src + (W * k + j) by omega, hm hd _ (by omega)]
      congr 1
      omega
    · rw [STORE_outside W _ _ _ _ (by omega)]
      apply h3 hd
      obtain ⟨e, he, hc⟩ := hx
      rcases List.mem_append.1 he with he | he
      · exact ⟨e, he, hc⟩
      · simp only [List.mem_singleton] at he
        subst he
        simp only [covers, decide_eq_true_eq] at hc
        omega

theorem check_iff (Check : Bool) (p : Prop) [Decidable p] :
    ((!Check || decide p) = true) ↔ (Check = false ∨ p) := by
  cases Check <;> simp

theorem u32_of_lt (n : Nat) (h : n < 2 ^ 32) : u32 n = n := Nat.mod_eq_of_lt h

theorem loadLoop_spec (W BlockSz : Nat) (Check : Bool) (srcBuf nwords : Nat) (mem : Mem)
    (R : Nat) : ∀ (n i ofs : Nat) (regs : List Nat),
    regs.length = R → 2 * (i + n) ≤ R → ofs + u32 (BlockSz * 2) * n + 1 < 2 ^ 32 →
    (loadLoop W BlockSz Check srcBuf nwords mem n i ofs regs).length = R ∧
    (∀ q, q < 2 * i →
      (loadLoop W BlockSz Check srcBuf nwords mem n i ofs regs)[q]? = regs[q]?) ∧
    (∀ k j, k < n → j < 2 →
      (Check = false ∨ ofs + u32 (BlockSz * 2) * k + j < nwords) →
      (loadLoop W BlockSz Check srcBuf nwords mem n i ofs regs)[2 * (i + k) + j]? =
        some (LOAD mem (srcBuf + W * (ofs + u32 (BlockSz * 2) * k + j)) W)) := by
  intro n
  induction n with
  | zero =>
    intro i ofs regs hl _ _
    refine ⟨hl, fun q _ => rfl, ?_⟩
    intro k j hk; omega
  | succ n ih =>
    intro i ofs regs hl hR hw
    generalize hD : u32 (BlockSz * 2) = D at *
    have hmul : D * (n + 1) = D * n + D := by ring
    simp only [loadLoop]
    rw [hD, u32_of_lt (ofs + 1) (by omega), u32_of_lt (ofs + D) (by omega)]
    generalize hr1 : (if (!Check || decide (ofs < nwords)) = true then
        regs.set (2 * i) (LOAD mem (srcBuf + W * ofs) W) else regs) = regs1
    generalize hr2 : (if (!Check || decide (ofs + 1 < nwords)) = true then
        regs1.set (2 * i + 1) (LOAD mem (srcBuf + W * ofs + W) W) else regs1) = regs2
    have hl1 : regs1.length = R := by
      rw [← hr1]; split <;> simp [hl]
    have hl2 : regs2.length = R := by
      rw [← hr2]; split <;> simp [hl1]
    have hlow1 : ∀ q, q < 2 * i → regs1[q]? = regs[q]? := by
      intro q hq
      rw [← hr1]; split
      · rw [List.getElem?_set_ne (by omega)]
      · rfl
    have hlow2 : ∀ q, q ≠ 2 * i + 1 → regs2[q]? = regs1[q]? := by
      intro q hq
      rw [← hr2]; split
      · rw [List.getElem?_set_ne (by omega)]
      · rfl
    have hA : (Check = false ∨ ofs < nwords) →
        regs1[2 * i]? = some (LOAD mem (srcBuf + W * ofs) W) := by
      intro hc
      rw [← hr1, if_pos ((check_iff _ _).2 hc)]
      rw [List.getElem?_set_self (by omega)]
    have hB : (Check = false ∨ ofs + 1 < nwords) →
        regs2[2 * i + 1]? = some (LOAD mem (srcBuf + W * ofs + W) W) := by
      intro hc
      rw [← hr2, if_pos ((check_iff _ _).2 hc)]
      rw [List.getElem?_set_self (by omega)]
    obtain ⟨ih1, ih2, ih3⟩ := ih (i + 1) (ofs + D) regs2 hl2 (by omega) (by omega)
    refine ⟨ih1, ?_, ?_⟩
    · intro q hq
      rw [ih2 q (by omega), hlow2 q (by omega), hlow1 q hq]
    · intro k j hk hj hc
      cases k with
      | zero =>
        have hj2 : j = 0 ∨ j = 1 := by omega
        rcases hj2 with rfl | rfl
        · rw [ih2 _ (by omega), hlow2 _ (by omega)]
          simpa using hA (by simpa using hc)
        · rw [ih2 _ (by omega)]
          have := hB (by simpa using hc)
          simpa [Nat.mul_add, Nat.add_assoc] using this
      | succ k =>
        have := ih3 k j (by omega) hj (by
          rcases hc with hc | hc
          · exact Or.inl hc
          · right
            have : ofs + D * (k + 1) + j = ofs + D + D * k + j := by ring
            omega)
        rw [show 2 * (i + (k + 1)) + j = 2 * (i + 1 + k) + j by ring]
        rw [this]
        congr 3
        ring

theorem storeLoop_spec (m0 : Mem) (src tgt S W BlockSz : Nat) (Check : Bool) (nwords : Nat)
    (regs : List Nat) (m1 : Mem)
    (hm : (src + S ≤ tgt ∨ tgt + S ≤ src) → ∀ y, y < S → m1 (src + y) = m0 (src + y)) :
    ∀ (n i ofs : Nat) (st : DevState),
    Good m0 src tgt S st → ofs + u32 (BlockSz * 2) * n + 1 < 2 ^ 32 →
    (∀ k j, k < n → j < 2 →
      (Check = false ∨ ofs + u32 (BlockSz * 2) * k + j < nwords) →
      W * (ofs + u32 (BlockSz * 2) * k + j) + W ≤ S ∧
      regs[2 * (i + k) + j]? =
        some (LOAD m1 (src + W * (ofs + u32 (BlockSz * 2) * k + j)) W)) →
    (storeLoop W BlockSz Check tgt nwords regs n i ofs st).1 = ofs + u32 (BlockSz * 2) * n ∧
    (storeLoop W BlockSz Check tgt nwords regs n i ofs st).2.stores =
      st.stores ++ (iterWords Check nwords (u32 (BlockSz * 2)) n ofs).map (wordStore tgt W) ∧
    Good m0 src tgt S (storeLoop W BlockSz Check tgt nwords regs n i ofs st).2 := by
  intro n
  induction n with
  | zero =>
    intro i ofs st hg _ _
    simp [storeLoop, iterWords, hg]
  | succ n ih =>
    intro i ofs st hg hw hr
    generalize hD : u32 (BlockSz * 2) = D at *
    have hmul : D * (n + 1) = D * n + D := by ring
    simp only [storeLoop, iterWords]
    rw [hD, u32_of_lt (ofs + 1) (by omega), u32_of_lt (ofs + D) (by omega)]
    generalize hs1 : (if (!Check || decide (ofs < nwords)) = true then
        ({ mem := STORE (regs.getD (2 * i) 0) st.mem (tgt + W * ofs) W,
           stores := st.stores ++ [(tgt + W * ofs, W)] } : DevState) else st) = st1
    generalize hs2 : (if (!Check || decide (ofs + 1 < nwords)) = true then
        ({ mem := STORE (regs.getD (2 * i + 1) 0) st1.mem (tgt + W * ofs + W) W,
           stores := st1.stores ++ [(tgt + W * ofs + W, W)] } : DevState) else st1) = st2
    have h1 : Good m0 src tgt S st1 ∧ st1.stores = st.stores ++
        (if (!Check || decide (ofs < nwords)) = true then [ofs] else []).map
          (wordStore tgt W) := by
      rw [← hs1]
      by_cases hc : (!Check || decide (ofs < nwords)) = true
      · rw [if_pos hc, if_pos hc]
        have hc2 : Check = false ∨ ofs < nwords := (check_iff _ _).1 hc
        obtain ⟨hb, hreg⟩ := hr 0 0 (by omega) (by omega) (by simpa using hc2)
        simp only [Nat.mul_zero, Nat.add_zero] at hb hreg
        rw [List.getD_eq_getElem?_getD, hreg]
        exact ⟨Good_store m0 src tgt S W ofs m1 st hg hb hm, rfl⟩
      · rw [if_neg hc, if_neg hc]
        simpa using hg
    have h2 : Good m0 src tgt S st2 ∧ st2.stores = st1.stores ++
        (if (!Check || decide (ofs + 1 < nwords)) = true then [ofs + 1] else []).map
          (wordStore tgt W) := by
      rw [← hs2]
      by_cases hc : (!Check || decide (ofs + 1 < nwords)) = true
      · rw [if_pos hc, if_pos hc]
        have hc2 : Check = false ∨ ofs + 1 < nwords := (check_iff _ _).1 hc
        obtain ⟨hb, hreg⟩ := hr 0 1 (by omega) (by omega) (by simpa using hc2)
        simp only [Nat.mul_zero, Nat.add_zero] at hb hreg
        rw [List.getD_eq_getElem?_getD, hreg]
        have := Good_store m0 src tgt S W (ofs + 1) m1 st1 h1.1 hb hm
        simp only [Nat.mul_add, Nat.mul_one, ← Nat.add_assoc] at this ⊢
        refine ⟨this, ?_⟩
        simp [wordStore, Nat.mul_add, Nat.add_assoc]
      · rw [if_neg hc, if_neg hc]
        simpa using h1.1
    obtain ⟨ih1, ih2, ih3⟩ := ih (i + 1) (ofs + D) st2 h2.1 (by omega) (by
      intro k j hk hj hc
      have e1 : ofs + D * (k + 1) + j = ofs + D + D * k + j := by ring
      have e2 : 2 * (i + (k + 1)) + j = 2 * (i + 1 + k) + j := by ring
      have := hr (k + 1) j (by omega) hj (by rw [e1]; exact hc)
      rw [e1, e2] at this
      exact this)
    refine ⟨?_, ?_, ih3⟩
    · rw [ih1]; ring
    · rw [ih2, h2.2, h1.2]
      simp [List.append_assoc]

/-- One iteration of the outer loop: the load loop followed by the store loop. -/
theorem copyBody_spec (m0 : Mem) (src tgt S W BlockSz NumRegs : Nat) (Check : Bool)
    (nwords ofs : Nat) (regs : List Nat) (st : DevState)
    (hg : Good m0 src tgt S st) (hl : regs.length = NumRegs)
    (hw : ofs + u32 (BlockSz * 2) * (NumRegs / 2) + 1 < 2 ^ 32)
    (hb : ∀ k j, k < NumRegs / 2 → j < 2 →
      (Check = false ∨ ofs + u32 (BlockSz * 2) * k + j < nwords) →
      W * (ofs + u32 (BlockSz * 2) * k + j) + W ≤ S) :
    (storeLoop W BlockSz Check tgt nwords
      (loadLoop W BlockSz Check src nwords st.mem (NumRegs / 2) 0 ofs regs)
      (NumRegs / 2) 0 ofs st).1 = ofs + u32 (BlockSz * 2) * (NumRegs / 2) ∧
    (storeLoop W BlockSz Check tgt nwords
      (loadLoop W BlockSz Check src nwords st.mem (NumRegs / 2) 0 ofs regs)
      (NumRegs / 2) 0 ofs st).2.stores =
      st.stores ++
        (iterWords Check nwords (u32 (BlockSz * 2)) (NumRegs / 2) ofs).map (wordStore tgt W) ∧
    Good m0 src tgt S (storeLoop W BlockSz Check tgt nwords
      (loadLoop W BlockSz Check src nwords st.mem (NumRegs / 2) 0 ofs regs)
      (NumRegs / 2) 0 ofs st).2 := by
  obtain ⟨_, _, hr⟩ := loadLoop_spec W BlockSz Check src nwords st.mem NumRegs (NumRegs / 2) 0
    ofs regs hl (by omega) hw
  apply storeLoop_spec m0 src tgt S W BlockSz Check nwords _ st.mem
    (fun hd y hy => Good_src m0 src tgt S st hg hd y hy) (NumRegs / 2) 0 ofs st hg hw
  intro k j hk hj hc
  exact ⟨hb k j hk hj hc, hr k j hk hj hc⟩

theorem loadLoop_length (W BlockSz : Nat) (Check : Bool) (srcBuf nwords : Nat) (mem : Mem) :
    ∀ (n i ofs : Nat) (regs : List Nat),
    (loadLoop W BlockSz Check srcBuf nwords mem n i ofs regs).length = regs.length := by
  intro n
  induction n with
  | zero => intro i ofs regs; rfl
  | succ n ih =>
    intro i ofs regs
    simp only [loadLoop]
    rw [ih]
    split <;> split <;> simp

theorem copyIters_spec (m0 : Mem) (src tgt S W BlockSz NumRegs : Nat) (Check : Bool)
    (nwords : Nat) : ∀ (n ofs : Nat) (regs : List Nat) (st : DevState),
    Good m0 src tgt S st → regs.length = NumRegs →
    ofs + u32 (BlockSz * 2) * (NumRegs / 2) * n + 1 < 2 ^ 32 →
    (∀ s k j, s < n → k < NumRegs / 2 → j < 2 →
      (Check = false ∨
        ofs + u32 (BlockSz * 2) * (NumRegs / 2) * s + u32 (BlockSz * 2) * k + j < nwords) →
      W * (ofs + u32 (BlockSz * 2) * (NumRegs / 2) * s + u32 (BlockSz * 2) * k + j) + W ≤ S) →
    (copyIters W BlockSz NumRegs true Check src tgt nwords n ofs regs st).stores =
      st.stores ++ (loopWords Check nwords (u32 (BlockSz * 2)) (NumRegs / 2) n ofs).map
        (wordStore tgt W) ∧
    Good m0 src tgt S (copyIters W BlockSz NumRegs true Check src tgt nwords n ofs regs st) := by
  intro n
  induction n with
  | zero =>
    intro ofs regs st hg _ _ _
    simp [copyIters, loopWords, hg]
  | succ n ih =>
    intro ofs regs st hg hl hw hb
    generalize hP : u32 (BlockSz * 2) * (NumRegs / 2) = P at *
    have hmul : P * (n + 1) = P * n + P := by ring
    obtain ⟨b1, b2, b3⟩ := copyBody_spec m0 src tgt S W BlockSz NumRegs Check nwords ofs regs st
      hg hl (by rw [hP]; omega) (by
        intro k j hk hj hc
        have := hb 0 k j (by omega) hk hj (by simpa using hc)
        simpa using this)
    rw [hP] at b1
    simp only [copyIters, loopWords, Bool.not_true, Bool.false_eq_true, if_false]
    rw [b1]
    obtain ⟨i1, i2⟩ := ih (ofs + P)
      (loadLoop W BlockSz Check src nwords st.mem (NumRegs / 2) 0 ofs regs) _ b3
      (by rw [loadLoop_length]; exact hl) (by omega) (by
        intro s k j hs hk hj hc
        have e : ofs + P * (s + 1) = ofs + P + P * s := by ring
        have := hb (s + 1) k j (by omega) hk hj (by rw [e]; exact hc)
        rw [e] at this
        exact this)
    refine ⟨?_, i2⟩
    rw [i1, b2, hP]
    simp [List.append_assoc]

theorem u32_1024 : u32 (512 * 2) = 1024 := by decide

theorem rcclKernel_copy_spec (m0 : Mem) (w : WorkInfo) (tid : Nat) (st : DevState)
    (hS : w.sendItem.size < 2 ^ 32) (ht : tid < 512)
    (hg : Good m0 w.sendItem.dataBuf w.targetBuf w.sendItem.size st) :
    (rcclKernel_copy 512 24 w tid st).stores =
      st.stores ++ laneStores w.targetBuf w.sendItem.size tid ∧
    Good m0 w.sendItem.dataBuf w.targetBuf w.sendItem.size (rcclKernel_copy 512 24 w tid st) := by
  generalize hSd : w.sendItem.size = S at *
  generalize hsrc : w.sendItem.dataBuf = src at *
  generalize htgt : w.targetBuf = tgt at *
  have e1 : u32 (512 * 24) = 12288 := by decide
  have e2 : u32 (512 * 24 * 8) = 98304 := by decide
  have e3 : u32 (tid * 2) = 2 * tid := by rw [u32_of_lt _ (by omega)]; omega
  have hn : 12288 * (S / 8 / 12288) ≤ S / 8 := Nat.mul_div_le _ _
  have e4 : u32 (S / 8 / 12288 * 98304) = 98304 * (S / 8 / 12288) := by
    rw [u32_of_lt _ (by omega)]; omega
  have e5 : u32 (2 * tid + 98304 * (S / 8 / 12288) / 4) = 2 * tid + 24576 * (S / 8 / 12288) := by
    rw [u32_of_lt _ (by omega)]; omega
  simp only [rcclKernel_copy, copyMainLoop, hSd, hsrc, htgt, e1, e2, e3, e4, e5]
  obtain ⟨m1, m2⟩ := copyIters_spec m0 src tgt S 8 512 24 false 0 (S / 8 / 12288) (2 * tid)
    (List.replicate 24 0) st hg (by simp) (by rw [u32_1024]; omega) (by
      intro s k j hs hk hj _
      rw [u32_1024]
      omega)
  rw [u32_1024] at m1
  generalize copyIters 8 512 24 true false src tgt 0 (S / 8 / 12288) (2 * tid)
    (List.replicate 24 0) st = st1 at m1 m2 ⊢
  obtain ⟨_, b2, b3⟩ := copyBody_spec m0 src tgt S 4 512 48 true (S / 4)
    (2 * tid + 24576 * (S / 8 / 12288)) (List.replicate 48 0) st1 m2 (by simp)
    (by rw [u32_1024]; omega) (by
      intro k j hk hj hc
      rw [u32_1024] at hc ⊢
      simp only [Bool.true_eq_false, false_or] at hc
      omega)
  rw [u32_1024] at b2
  simp only [copyIters, Bool.not_false, if_true]
  refine ⟨?_, b3⟩
  rw [b2, m1, laneStores, List.append_assoc]

theorem rcclKernel_copyLanes_spec (m0 : Mem) (w : WorkInfo) (hS : w.sendItem.size < 2 ^ 32) :
    ∀ (l : List Nat) (st : DevState), (∀ t ∈ l, t < 512) →
    Good m0 w.sendItem.dataBuf w.targetBuf w.sendItem.size st →
    (l.foldl (fun s tid => rcclKernel_copy 512 24 w tid s) st).stores =
      st.stores ++ l.flatMap (laneStores w.targetBuf w.sendItem.size) ∧
    Good m0 w.sendItem.dataBuf w.targetBuf w.sendItem.size
      (l.foldl (fun s tid => rcclKernel_copy 512 24 w tid s) st) := by
  intro l
  induction l with
  | nil => intro st _ hg; simp [hg]
  | cons t l ih =>
    intro st hl hg
    obtain ⟨a1, a2⟩ := rcclKernel_copy_spec m0 w t st hS (hl t (by simp)) hg
    obtain ⟨b1, b2⟩ := ih (rcclKernel_copy 512 24 w t st)
      (fun u hu => hl u (List.mem_cons_of_mem _ hu)) a2
    simp only [List.foldl_cons, List.flatMap_cons]
    refine ⟨?_, b2⟩
    rw [b1, a1, List.append_assoc]

theorem covers_wordStore (tgt W x k : Nat) (hW : 0 < W) :
    covers (tgt + x) (wordStore tgt W k) = decide (k = x / W) := by
  have h : (tgt + W * k ≤ tgt + x ∧ tgt + x < tgt + W * k + W) ↔ k = x / W := by
    constructor
    · rintro ⟨h1, h2⟩
      symm
      apply Nat.div_eq_of_lt_le
      · rw [Nat.mul_comm]; omega
      · rw [Nat.succ_mul, Nat.mul_comm]; omega
    · rintro rfl
      have := Nat.mul_div_le x W
      have := Nat.lt_mul_div_succ x hW
      rw [Nat.mul_add] at this
      omega
  simp only [covers, wordStore]
  exact decide_eq_decide.2 h

theorem countP_wordStore (tgt W x : Nat) (hW : 0 < W) (ws : List Nat) :
    List.countP (covers (tgt + x)) (ws.map (wordStore tgt W)) = ws.count (x / W) := by
  induction ws with
  | nil => rfl
  | cons k ws ih =>
    rw [List.map_cons, List.countP_cons, ih, covers_wordStore tgt W x k hW, List.count_cons]
    by_cases h : k = x / W <;> simp [h]

theorem count_ite_singleton (P : Prop) [Decidable P] (a k : Nat) :
    (if P then [a] else []).count k = if P ∧ a = k then 1 else 0 := by
  by_cases h : P <;> by_cases h2 : a = k <;> simp [h, h2, List.count_cons]

theorem count_iterWords (Check : Bool) (nwords : Nat) : ∀ (n ofs k : Nat),
    (iterWords Check nwords 1024 n ofs).count k =
      if ofs ≤ k ∧ k < ofs + 1024 * n ∧ (k - ofs) % 1024 < 2 ∧
        (Check = false ∨ k < nwords)
      then 1 else 0 := by
  intro n
  induction n with
  | zero =>
    intro ofs k
    simp only [iterWords, List.count_nil]
    rw [if_neg (by omega)]
  | succ n ih =>
    intro ofs k
    simp only [iterWords, List.count_append, check_iff, count_ite_singleton, ih]
    cases Check
    · simp only [true_or, true_and, and_true]
      split_ifs <;> omega
    · simp only [Bool.true_eq_false, false_or]
      split_ifs <;> omega

theorem count_loopWords : ∀ (n ofs k : Nat),
    (loopWords false 0 1024 12 n ofs).count k =
      if ofs ≤ k ∧ k < ofs + 12288 * n ∧ (k - ofs) % 1024 < 2 then 1 else 0 := by
  intro n
  induction n with
  | zero =>
    intro ofs k
    simp only [loopWords, List.count_nil]
    rw [if_neg (by omega)]
  | succ n ih =>
    intro ofs k
    simp only [loopWords, List.count_append, count_iterWords, ih, true_or, and_true]
    split_ifs <;> omega

theorem countP_laneStores (tgt S tid x : Nat) (ht : tid < 512) :
    List.countP (covers (tgt + x)) (laneStores tgt S tid) =
      if x < 4 * (S / 4) ∧ writerLane S x = tid then 1 else 0 := by
  simp only [laneStores, List.countP_append, countP_wordStore tgt 8 x (by omega),
    countP_wordStore tgt 4 x (by omega), count_loopWords, count_iterWords, writerLane,
    Bool.true_eq_false, false_or]
  split_ifs <;> omega

theorem countP_lanes (tgt S x : Nat) : ∀ m : Nat, m ≤ 512 →
    List.countP (covers (tgt + x)) ((List.range m).flatMap (laneStores tgt S)) =
      if x < 4 * (S / 4) ∧ writerLane S x < m then 1 else 0 := by
  intro m
  induction m with
  | zero => intro _; simp
  | succ m ih =>
    intro hm
    rw [List.range_succ, List.flatMap_append, List.countP_append, ih (by omega)]
    simp only [List.flatMap_cons, List.flatMap_nil, List.append_nil,
      countP_laneStores tgt S m x (by omega)]
    split_ifs <;> omega

theorem writerLane_lt (S x : Nat) : writerLane S x < 512 := by
  unfold writerLane
  split_ifs <;> omega

theorem rcclKernel_copyAll_spec (m0 : Mem) (w : WorkInfo) (hS : w.sendItem.size < 2 ^ 32) :
    (rcclKernel_copyAll s_numWorkThreads s_numRegsPerThread w ⟨m0, []⟩).stores =
      (List.range 512).flatMap (laneStores w.targetBuf w.sendItem.size) ∧
    Good m0 w.sendItem.dataBuf w.targetBuf w.sendItem.size
      (rcclKernel_copyAll s_numWorkThreads s_numRegsPerThread w ⟨m0, []⟩) := by
  have := rcclKernel_copyLanes_spec m0 w hS (List.range 512) ⟨m0, []⟩
    (fun t ht => List.mem_range.1 ht) (Good_init m0 _ _ _)
  unfold rcclKernel_copyAll s_numWorkThreads s_numRegsPerThread
  rw [List.nil_append] at this
  exact this

theorem rcclKernel_copyAll_count (m0 : Mem) (w : WorkInfo) (hS : w.sendItem.size < 2 ^ 32)
    (x : Nat) :
    List.countP (covers (w.targetBuf + x))
      (rcclKernel_copyAll s_numWorkThreads s_numRegsPerThread w ⟨m0, []⟩).stores =
      if x < 4 * (w.sendItem.size / 4) then 1 else 0 := by
  rw [(rcclKernel_copyAll_spec m0 w hS).1, countP_lanes _ _ _ 512 (le_refl _)]
  have := writerLane_lt w.sendItem.size x
  split_ifs <;> first | rfl | omega

theorem rcclKernel_copyAll_copied (m0 : Mem) (w : WorkInfo) (hS : w.sendItem.size < 2 ^ 32)
    (hd : w.sendItem.dataBuf + w.sendItem.size ≤ w.targetBuf ∨
      w.targetBuf + w.sendItem.size ≤ w.sendItem.dataBuf)
    (x : Nat) (hx : x < 4 * (w.sendItem.size / 4)) :
    (rcclKernel_copyAll s_numWorkThreads s_numRegsPerThread w ⟨m0, []⟩).mem (w.targetBuf + x) =
      m0 (w.sendItem.dataBuf + x) := by
  have hc := rcclKernel_copyAll_count m0 w hS x
  rw [if_pos hx] at hc
  have hcov : Covered (rcclKernel_copyAll s_numWorkThreads s_numRegsPerThread w ⟨m0, []⟩).stores
      (w.targetBuf + x) := by
    apply List.countP_pos_iff.1
    omega
  have := (rcclKernel_copyAll_spec m0 w hS).2.2.2 hd _ hcov
  rw [Nat.add_sub_cancel_left] at this
  exact this

theorem rcclKernel_copyAll_untouched (m0 : Mem) (w : WorkInfo) (hS : w.sendItem.size < 2 ^ 32)
    (a : Nat) (ha : a < w.targetBuf ∨ w.targetBuf + 4 * (w.sendItem.size / 4) ≤ a) :
    (rcclKernel_copyAll s_numWorkThreads s_numRegsPerThread w ⟨m0, []⟩).mem a = m0 a := by
  apply (rcclKernel_copyAll_spec m0 w hS).2.2.1
  intro hcov
  rcases Nat.lt_or_ge a w.targetBuf with h | h
  · obtain ⟨e, he, hc⟩ := hcov
    have := (rcclKernel_copyAll_spec m0 w hS).2.1 e he
    simp only [covers, decide_eq_true_eq] at hc
    omega
  · obtain ⟨x, rfl⟩ : ∃ x, a = w.targetBuf + x := ⟨a - w.targetBuf, by omega⟩
    have hc := rcclKernel_copyAll_count m0 w hS x
    rw [if_neg (by omega)] at hc
    have := List.countP_pos_iff.2 hcov
    omega

/-! ## The host calls -/

theorem allocWorkBuf_ok (rt : Runtime) (pinfo info1 : ThreadInfo) (num k k1 : Nat)
    (h : allocWorkBuf rt pinfo num k = .ok (info1, k1)) :
    info1.gpuId = pinfo.gpuId ∧ info1.exchangeBuf = pinfo.exchangeBuf ∧
    info1.workItems = pinfo.workItems ∧ info1.numDevWorkItems = num := by
  unfold allocWorkBuf at h
  split at h
  · cases h
  · injection h with h
    injection h with h1 h2
    subst h1
    exact ⟨rfl, rfl, rfl, rfl⟩

theorem initInfos_ok (rt : Runtime) (sz : Nat) :
    ∀ (l l1 : List ThreadInfo) (i : Int) (k k1 : Nat),
    0 ≤ i → initInfos rt sz l i k = .ok (l1, k1) →
    l1.length = l.length ∧
      (l.length = 0 ∨ i + (l.length : Int) ≤ (rt.deviceCount : Int)) := by
  intro l
  induction l with
  | nil =>
    intro l1 i k k1 _ h
    simp only [initInfos] at h
    injection h with h
    injection h with h1 h2
    subst h1
    simp
  | cons info rest ih =>
    intro l1 i k k1 hi h
    simp only [initInfos] at h
    split at h
    · rename_i hset
      split at h
      · cases h
      · split at h
        · cases h
        · split at h
          · cases h
          · rename_i rest1 k2 hrest
            injection h with h
            injection h with h1 h2
            subst h1
            obtain ⟨a1, a2⟩ := ih rest1 (i + 1) _ k2 (by omega) hrest
            simp only [Runtime.cudaSetDevice, decide_eq_true_eq] at hset
            simp only [List.length_cons, a1, Nat.cast_add, Nat.cast_one]
            refine ⟨trivial, Or.inr ?_⟩
            omega
    · cases h

theorem resize_length (l : List ThreadInfo) (n : Nat) : (resize l n).length = n := by
  simp only [resize, List.length_append, List.length_take, List.length_replicate]
  omega

theorem init_ok (rt : Runtime) (n : Nat) (w w1 : Process) (r : QCCL_Result)
    (h : init rt n w = .ok (r, w1)) :
    r = .OK ∧ w1.lib.m_initialized = true ∧ (w.lib.m_initialized = true → w1 = w) ∧
    (w.lib.m_initialized = false → w1.lib.m_infos.length = n ∧ n ≤ rt.deviceCount) := by
  unfold init at h
  split at h
  · rename_i hi
    injection h with h
    injection h with h1 h2
    subst h1 h2
    exact ⟨rfl, hi, fun _ => rfl, fun hf => by rw [hi] at hf; cases hf⟩
  · rename_i hi
    split at h
    · cases h
    · rename_i infos k hinfos
      split at h
      · injection h with h
        injection h with h1 h2
        subst h1 h2
        obtain ⟨a1, a2⟩ := initInfos_ok rt _ _ _ 0 _ _ (le_refl _) hinfos
        rw [resize_length] at a1 a2
        refine ⟨rfl, rfl, fun ht => absurd ht hi, fun _ => ⟨a1, ?_⟩⟩
        omega
      · cases h

theorem map_set_of_eq {α β : Type} (f : α → β) (l : List α) (i : Nat) (a b : α)
    (h : l[i]? = some b) (hf : f a = f b) : (l.set i a).map f = l.map f := by
  apply List.ext_getElem?
  intro j
  rw [List.getElem?_map, List.getElem?_map, List.getElem?_set]
  by_cases hij : i = j
  · subst hij
    rw [if_pos rfl, h]
    have : i < l.length := by
      rcases Nat.lt_or_ge i l.length with hlt | hge
      · exact hlt
      · rw [List.getElem?_eq_none hge] at h; cases h
    simp [this, hf]
  · rw [if_neg hij]

theorem enqueueSendRecv_ok (e e1 : GpuCommLib)
    (ID recvPeer recvBuf recvSize sendPeer sendBuf sendSize : Nat) (r : QCCL_Result)
    (h : enqueueSendRecv e ID recvPeer recvBuf recvSize sendPeer sendBuf sendSize = .ok (r, e1)) :
    e1.m_initialized = e.m_initialized ∧ e1.m_infos.length = e.m_infos.length ∧
    e1.m_infos.map (fun i => i.exchangeBuf) = e.m_infos.map (fun i => i.exchangeBuf) := by
  unfold enqueueSendRecv at h
  split at h
  · injection h with h
    injection h with h1 h2
    subst h2
    exact ⟨rfl, rfl, rfl⟩
  · split at h
    · injection h with h
      injection h with h1 h2
      subst h2
      exact ⟨rfl, rfl, rfl⟩
    · split at h
      · rename_i info peerInfo hinfo hpeer
        injection h with h
        injection h with h1 h2
        subst h2
        refine ⟨rfl, by simp, ?_⟩
        exact map_set_of_eq _ _ _ _ _ hinfo rfl
      · cases h

theorem growWorkBuf_ok (rt : Runtime) (info info1 : ThreadInfo) (k k1 : Nat)
    (h : growWorkBuf rt info k = .ok (info1, k1)) :
    info1.gpuId = info.gpuId ∧ info1.exchangeBuf = info.exchangeBuf ∧
    info1.workItems = info.workItems := by
  unfold growWorkBuf at h
  split at h
  · obtain ⟨a, b, c, _⟩ := allocWorkBuf_ok rt _ _ _ _ _ h
    exact ⟨a, b, c⟩
  · injection h with h
    injection h with h1 h2
    subst h1
    exact ⟨rfl, rfl, rfl⟩

theorem run_ok (rt : Runtime) (w w1 : Process) (ID stream : Nat) (r : QCCL_Result)
    (ops : List StreamOp) (h : run rt w ID stream = .ok (r, w1, ops)) :
    w1.lib.m_initialized = w.lib.m_initialized ∧ w1.lib.m_infos.length = w.lib.m_infos.length ∧
    w1.lib.m_infos.map (fun i => i.exchangeBuf) = w.lib.m_infos.map (fun i => i.exchangeBuf) := by
  unfold run at h
  split at h
  · cases h
  · rename_i info hinfo
    split at h
    · split at h
      · cases h
      · rename_i info1 k hgrow
        simp only at h
        split at h
        · cases h
        · injection h with h
          injection h with h1 h2
          injection h2 with h2 h3
          subst h2
          refine ⟨rfl, by simp, ?_⟩
          exact map_set_of_eq _ _ _ _ _ hinfo (growWorkBuf_ok rt _ _ _ _ hgrow).2.1
    · cases h

theorem Step_initialized (rt : Runtime) (w w1 : Process) (h : Step rt w w1)
    (hi : w.lib.m_initialized = true) :
    w1.lib.m_initialized = true ∧ w1.lib.m_infos.length = w.lib.m_infos.length ∧
    w1.lib.m_infos.map (fun i => i.exchangeBuf) = w.lib.m_infos.map (fun i => i.exchangeBuf) := by
  cases h with
  | @init _ nGpus r h =>
    have := (init_ok rt _ _ _ _ h).2.2.1 hi
    subst this
    exact ⟨hi, rfl, rfl⟩
  | @enqueue e1 ID recvPeer recvBuf recvSize sendPeer sendBuf sendSize r h =>
    obtain ⟨a, b, c⟩ := enqueueSendRecv_ok _ _ _ _ _ _ _ _ _ _ h
    exact ⟨a.trans hi, b, c⟩
  | @run _ ID stream r ops h =>
    obtain ⟨a, b, c⟩ := run_ok _ _ _ _ _ _ _ h
    exact ⟨a.trans hi, b, c⟩
  | @alloc n => exact ⟨hi, rfl, rfl⟩

theorem Steps_initialized (rt : Runtime) (w w1 : Process)
    (h : Relation.ReflTransGen (Step rt) w w1) (hi : w.lib.m_initialized = true) :
    w1.lib.m_initialized = true ∧ w1.lib.m_infos.length = w.lib.m_infos.length ∧
    w1.lib.m_infos.map (fun i => i.exchangeBuf) = w.lib.m_infos.map (fun i => i.exchangeBuf) := by
  induction h with
  | refl => exact ⟨hi, rfl, rfl⟩
  | tail _ hstep ih =>
    obtain ⟨a, b, c⟩ := Step_initialized rt _ _ hstep ih.1
    exact ⟨a, b.trans ih.2.1, c.trans ih.2.2⟩

theorem Step_bound (rt : Runtime) (w w1 : Process) (h : Step rt w w1)
    (hw : w.lib.m_initialized = true → w.lib.m_infos.length ≤ rt.deviceCount) :
    w1.lib.m_initialized = true → w1.lib.m_infos.length ≤ rt.deviceCount := by
  intro h1
  by_cases hi : w.lib.m_initialized = true
  · rw [(Step_initialized rt w w1 h hi).2.1]
    exact hw hi
  · have hf : w.lib.m_initialized = false := by simpa using hi
    cases h with
    | @init _ nGpus r h =>
      obtain ⟨a, b⟩ := (init_ok rt _ _ _ _ h).2.2.2 hf
      omega
    | @enqueue e1 ID recvPeer recvBuf recvSize sendPeer sendBuf sendSize r h =>
      have := (enqueueSendRecv_ok _ _ _ _ _ _ _ _ _ _ h).1
      simp only at h1
      rw [this, hf] at h1
      cases h1
    | @run _ ID stream r ops h =>
      have := (run_ok _ _ _ _ _ _ _ h).1
      rw [this, hf] at h1
      cases h1
    | @alloc n => exact absurd h1 hi

theorem Steps_bound (rt : Runtime) (k : Nat) (w : Process)
    (h : Relation.ReflTransGen (Step rt) (Process.fresh k) w) :
    w.lib.m_initialized = true → w.lib.m_infos.length ≤ rt.deviceCount := by
  induction h with
  | refl => intro h; cases h
  | tail _ hstep ih => exact Step_bound rt _ _ hstep ih

theorem Reachable_bound (rt : Runtime) (w : Process) (h : Reachable rt w)
    (hi : w.lib.m_initialized = true) : w.lib.m_infos.length < 2 ^ 31 := by
  obtain ⟨k, hk⟩ := h
  have := Steps_bound rt k w hk hi
  have := rt.deviceCount_lt
  omega

theorem exchangeOf_eq (e : GpuCommLib) (i : Nat) (info : ThreadInfo)
    (h : e.m_infos[i]? = some info) :
    exchangeOf e i = info.exchangeBuf := by
  simp [exchangeOf, List.getD_eq_getElem?_getD, List.getElem?_map, h]

theorem pendingOf_eq (e : GpuCommLib) (i : Nat) (info : ThreadInfo)
    (h : e.m_infos[i]? = some info) :
    pendingOf e i = info.workItems := by
  simp [pendingOf, List.getD_eq_getElem?_getD, List.getElem?_map, h]

theorem getElem?_some_of_lt (l : List ThreadInfo) (i : Nat) (h : i < l.length) :
    ∃ info, l[i]? = some info := ⟨l[i], List.getElem?_eq_getElem h⟩

theorem enqueueSendRecv_appended (e : GpuCommLib)
    (ID recvPeer recvBuf recvSize sendPeer sendBuf sendSize : Nat)
    (hi : e.m_initialized = true) (hID : ID < e.m_infos.length)
    (hP : sendPeer < e.m_infos.length) :
    ∃ e1, enqueueSendRecv e ID recvPeer recvBuf recvSize sendPeer sendBuf sendSize =
        .ok (.OK, e1) ∧
      e1.m_initialized = true ∧ e1.m_infos.length = e.m_infos.length ∧
      pendingOf e1 ID = pendingOf e ID ++
        [{ recvItem :=
            { peer := recvPeer, size := u32 recvSize,
              exchangeBuf := exchangeOf e ID + 8 * u32 (recvPeer * 2), dataBuf := recvBuf },
           sendItem :=
            { peer := sendPeer, size := u32 sendSize,
              exchangeBuf := exchangeOf e sendPeer + 8 * u32 (ID * 2), dataBuf := sendBuf },
           targetBuf := 0 }] ∧
      (∀ j, j ≠ ID → e1.m_infos[j]? = e.m_infos[j]?) := by
  obtain ⟨info, hinfo⟩ := getElem?_some_of_lt _ _ hID
  obtain ⟨peerInfo, hpeer⟩ := getElem?_some_of_lt _ _ hP
  unfold enqueueSendRecv
  rw [if_neg (by simp [hi]), if_neg (by omega)]
  simp only [hinfo, hpeer]
  refine ⟨_, rfl, hi, by simp, ?_, ?_⟩
  · rw [pendingOf_eq e ID info hinfo, exchangeOf_eq e ID info hinfo,
      exchangeOf_eq e sendPeer peerInfo hpeer]
    simp [pendingOf, List.getD_eq_getElem?_getD, List.getElem?_map, List.getElem?_set, hID]
  · intro j hj
    simp only
    rw [List.getElem?_set_ne (by omega)]

/-! ## Concrete runs of the host calls -/

theorem Reachable_exInitialized : Reachable exRuntime exInitialized :=
  ⟨0, Relation.ReflTransGen.single (Step.init _ _ 2 .OK rfl)⟩

theorem Reachable_enqueueN (rt : Runtime) (w : Process) (h : Reachable rt w) :
    ∀ n, Reachable rt { w with lib := enqueueN w.lib n } := by
  intro n
  induction n with
  | zero => exact h
  | succ n ih =>
    obtain ⟨k, hk⟩ := ih
    simp only [enqueueN]
    split
    · rename_i r e1 he
      exact ⟨k, Relation.ReflTransGen.tail hk
        (Step.enqueue { w with lib := enqueueN w.lib n } e1 0 1 65536 64 1 131072 64 r he)⟩
    · exact ⟨k, hk⟩

theorem run_out_of_range (rt : Runtime) (w : Process) (ID stream : Nat)
    (h : w.lib.m_infos.length ≤ ID) : run rt w ID stream = .error .undefinedBehaviour := by
  unfold run
  rw [List.getElem?_eq_none h]

theorem run_within_capacity (rt : Runtime) (w : Process) (ID stream : Nat)
    (info info1 : ThreadInfo) (k : Nat) (hinfo : w.lib.m_infos[ID]? = some info)
    (hdev : rt.cudaSetDevice info.gpuId = true)
    (hgrow : growWorkBuf rt info w.nAllocs = .ok (info1, k))
    (hfit : info.workItems.length ≤ info1.numDevWorkItems)
    (h32 : info.workItems.length < 2 ^ 32) :
    run rt w ID stream =
      .ok (.OK,
        { lib :=
            { w.lib with m_infos := w.lib.m_infos.set ID { info1 with workItems := [] } },
          nAllocs := k },
        [.memcpyHostToDevice info1.workBuf info.workItems stream,
         .launch info.workItems.length 512 info1.workBuf stream]) := by
  have hitems := (growWorkBuf_ok rt info info1 w.nAllocs k hgrow).2.2
  unfold run
  simp only [hinfo, hdev, hgrow, if_true, hitems, u32_of_lt _ h32]
  rw [if_neg (by omega), List.take_length]

theorem rcclKernel_loadAll_group (BlockSz : Nat) (gworkInfo : List Nat) (b : Nat)
    (s_workInfo : List Nat) :
    rcclKernel_loadAll BlockSz gworkInfo b s_workInfo =
      rcclKernel_loadAll BlockSz gworkInfo 0 s_workInfo := rfl

theorem rcclKernel_load_idle (gworkInfo : List Nat) :
    ∀ (l : List Nat) (s : List Nat), (∀ t ∈ l, s_num ≤ t) →
    l.foldl (fun s tid => rcclKernel_load gworkInfo tid s) s = s := by
  intro l
  induction l with
  | nil => intro s _; rfl
  | cons t l ih =>
    intro s h
    have ht := h t (by simp)
    rw [List.foldl_cons, ih _ (fun u hu => h u (List.mem_cons_of_mem _ hu))]
    unfold rcclKernel_load
    rw [if_neg (by omega)]

theorem rcclKernel_loadAll_first (d : WorkInfo) (rest : List WorkInfo) (b : Nat)
    (s_workInfo : List Nat) (hs : s_workInfo.length = s_num) :
    rcclKernel_loadAll s_numWorkThreads (deviceWords (d :: rest)) b s_workInfo = d.toWords := by
  have hr : List.range 512 = [0, 1, 2, 3, 4, 5, 6] ++ List.range' 7 505 := by
    rw [List.range_eq_range']
    exact (List.range'_append 0 7 505 1).symm
  unfold rcclKernel_loadAll s_numWorkThreads
  rw [hr, List.foldl_append, rcclKernel_load_idle _ _ _ (by
    intro t ht
    have := (List.mem_range'_1.1 ht).1
    exact this)]
  match s_workInfo, hs with
  | [a0, a1, a2, a3, a4, a5, a6], _ =>
    simp [rcclKernel_load, s_num, sizeofWorkInfo, deviceWords, WorkInfo.toWords]

/-! # The claims -/

/-- Claim C1. For a payload size below `2 ^ 32` that is divisible by 4 and a target buffer
that does not overlap the send buffer, the main pass and the remainder pass of all 512 lanes
leave byte `i` of the target equal to byte `i` of the source, for every `i` below the size. -/
theorem rcclKernel_copy_multiple_of_four (w : WorkInfo) (m0 : Mem)
    (hS : w.sendItem.size < 2 ^ 32) (h4 : w.sendItem.size % 4 = 0)
    (hd : w.sendItem.dataBuf + w.sendItem.size ≤ w.targetBuf ∨
      w.targetBuf + w.sendItem.size ≤ w.sendItem.dataBuf)
    (i : Nat) (hi : i < w.sendItem.size) :
    (rcclKernel_copyAll s_numWorkThreads s_numRegsPerThread w ⟨m0, []⟩).mem (w.targetBuf + i) =
      m0 (w.sendItem.dataBuf + i) :=
  rcclKernel_copyAll_copied m0 w hS hd i (by omega)

/-- Claim C1 at the size 8, byte 5. -/
theorem rcclKernel_copy_multiple_of_four_witness :
    ((exWork 8).sendItem.size < 2 ^ 32 ∧ (exWork 8).sendItem.size % 4 = 0 ∧
      5 < (exWork 8).sendItem.size) ∧
    (rcclKernel_copyAll s_numWorkThreads s_numRegsPerThread (exWork 8) ⟨exMem, []⟩).mem
        ((exWork 8).targetBuf + 5) = exMem ((exWork 8).sendItem.dataBuf + 5) :=
  ⟨by decide,
    rcclKernel_copy_multiple_of_four (exWork 8) exMem (by decide) (by decide) (by decide) 5
      (by decide)⟩

/-- Claim C2 fails as stated: for the size 1,048,577 (not a multiple of 8) the last byte,
index 1,048,576, is covered by no store of any lane and keeps its old value, which differs
from the source byte. -/
theorem rcclKernel_copy_odd_size_counterexample :
    (exWork 1048577).sendItem.size % 8 ≠ 0 ∧ 1048576 < (exWork 1048577).sendItem.size ∧
    List.countP (covers ((exWork 1048577).targetBuf + 1048576))
      (rcclKernel_copyAll s_numWorkThreads s_numRegsPerThread (exWork 1048577)
        ⟨exMem, []⟩).stores = 0 ∧
    (rcclKernel_copyAll s_numWorkThreads s_numRegsPerThread (exWork 1048577) ⟨exMem, []⟩).mem
        ((exWork 1048577).targetBuf + 1048576) ≠
      exMem ((exWork 1048577).sendItem.dataBuf + 1048576) := by
  refine ⟨by decide, by decide, ?_, ?_⟩
  · rw [rcclKernel_copyAll_count exMem (exWork 1048577) (by decide) 1048576]
    decide
  · rw [rcclKernel_copyAll_untouched exMem (exWork 1048577) (by decide) _ (Or.inr (by decide))]
    decide

/-- Claim C2, amended. For every payload size `S` below `2 ^ 32` and a target buffer that does
not overlap the send buffer, after both passes of all 512 lanes every byte index below
`4 * (S / 4)` is covered by exactly one store and holds the source byte, and every byte index
from `4 * (S / 4)` on is covered by no store and keeps its old value. -/
theorem rcclKernel_copy_whole_words (w : WorkInfo) (m0 : Mem)
    (hS : w.sendItem.size < 2 ^ 32)
    (hd : w.sendItem.dataBuf + w.sendItem.size ≤ w.targetBuf ∨
      w.targetBuf + w.sendItem.size ≤ w.sendItem.dataBuf) (i : Nat) :
    (i < 4 * (w.sendItem.size / 4) →
      List.countP (covers (w.targetBuf + i))
        (rcclKernel_copyAll s_numWorkThreads s_numRegsPerThread w ⟨m0, []⟩).stores = 1 ∧
      (rcclKernel_copyAll s_numWorkThreads s_numRegsPerThread w ⟨m0, []⟩).mem
        (w.targetBuf + i) = m0 (w.sendItem.dataBuf + i)) ∧
    (4 * (w.sendItem.size / 4) ≤ i →
      List.countP (covers (w.targetBuf + i))
        (rcclKernel_copyAll s_numWorkThreads s_numRegsPerThread w ⟨m0, []⟩).stores = 0 ∧
      (rcclKernel_copyAll s_numWorkThreads s_numRegsPerThread w ⟨m0, []⟩).mem
        (w.targetBuf + i) = m0 (w.targetBuf + i)) := by
  constructor
  · intro hi
    refine ⟨?_, rcclKernel_copyAll_copied m0 w hS hd i hi⟩
    rw [rcclKernel_copyAll_count m0 w hS i, if_pos hi]
  · intro hi
    refine ⟨?_, rcclKernel_copyAll_untouched m0 w hS _ (Or.inr (by omega))⟩
    rw [rcclKernel_copyAll_count m0 w hS i, if_neg (by omega)]

/-- Claim C2, amended, at the size 13: byte 7 is stored once, byte 12 never. -/
theorem rcclKernel_copy_whole_words_witness :
    (exWork 13).sendItem.size < 2 ^ 32 ∧
    (List.countP (covers ((exWork 13).targetBuf + 7))
        (rcclKernel_copyAll s_numWorkThreads s_numRegsPerThread (exWork 13) ⟨exMem, []⟩).stores
        = 1 ∧
      (rcclKernel_copyAll s_numWorkThreads s_numRegsPerThread (exWork 13) ⟨exMem, []⟩).mem
        ((exWork 13).targetBuf + 7) = exMem ((exWork 13).sendItem.dataBuf + 7)) ∧
    (List.countP (covers ((exWork 13).targetBuf + 12))
        (rcclKernel_copyAll s_numWorkThreads s_numRegsPerThread (exWork 13) ⟨exMem, []⟩).stores
        = 0 ∧
      (rcclKernel_copyAll s_numWorkThreads s_numRegsPerThread (exWork 13) ⟨exMem, []⟩).mem
        ((exWork 13).targetBuf + 12) = exMem ((exWork 13).targetBuf + 12)) :=
  ⟨by decide,
    (rcclKernel_copy_whole_words (exWork 13) exMem (by decide) (by decide) 7).1 (by decide),
    (rcclKernel_copy_whole_words (exWork 13) exMem (by decide) (by decide) 12).2 (by decide)⟩

/-- Claim C3. For every payload size `S` below `2 ^ 32`: every store a lane `tid < 512` performs
in the main pass and in the remainder pass, from whatever memory it starts, lies inside the
`S` bytes of the target buffer; so do all stores of the group; and after the copy every byte
outside the `S` bytes of the target buffer has the value it had before. -/
theorem rcclKernel_copy_in_bounds (w : WorkInfo) (m0 : Mem) (hS : w.sendItem.size < 2 ^ 32) :
    (∀ tid, tid < 512 → ∀ (m : Mem),
      ∀ e ∈ (rcclKernel_copy s_numWorkThreads s_numRegsPerThread w tid ⟨m, []⟩).stores,
        w.targetBuf ≤ e.1 ∧ e.1 + e.2 ≤ w.targetBuf + w.sendItem.size) ∧
    (∀ e ∈ (rcclKernel_copyAll s_numWorkThreads s_numRegsPerThread w ⟨m0, []⟩).stores,
      w.targetBuf ≤ e.1 ∧ e.1 + e.2 ≤ w.targetBuf + w.sendItem.size) ∧
    (∀ a, (a < w.targetBuf ∨ w.targetBuf + w.sendItem.size ≤ a) →
      (rcclKernel_copyAll s_numWorkThreads s_numRegsPerThread w ⟨m0, []⟩).mem a = m0 a) := by
  refine ⟨?_, (rcclKernel_copyAll_spec m0 w hS).2.1, ?_⟩
  · intro tid ht m
    exact (rcclKernel_copy_spec m w tid ⟨m, []⟩ hS ht (Good_init m _ _ _)).2.1
  · intro a ha
    apply rcclKernel_copyAll_untouched m0 w hS
    have := Nat.mul_div_le w.sendItem.size 4
    omega

/-- Claim C3 at the size 13: the red-zone byte at offset 13 is unchanged. -/
theorem rcclKernel_copy_in_bounds_witness :
    (exWork 13).sendItem.size < 2 ^ 32 ∧
    (rcclKernel_copyAll s_numWorkThreads s_numRegsPerThread (exWork 13) ⟨exMem, []⟩).mem
      ((exWork 13).targetBuf + 13) = exMem ((exWork 13).targetBuf + 13) :=
  ⟨by decide,
    (rcclKernel_copy_in_bounds (exWork 13) exMem (by decide)).2.2 _ (Or.inr (by decide))⟩

/-- Claim C4. In a reachable, initialised engine with `N` devices and for ids `A, B < N`: the
call `enqueueSendRecv(A, ..., sendPeer = B, ...)` appends a descriptor whose send-side slot
pointer is the exchange array of `B` plus `2 * A` slots (of 8 bytes), the call
`enqueueSendRecv(B, recvPeer = A, ...)` appends a descriptor whose receive-side slot pointer is
the same address, and both descriptors have a null `targetBuf`. The two calls may happen in
any later states `wA`, `wB` of the process. -/
theorem enqueueSendRecv_slot_agreement (rt : Runtime) (w0 wA wB : Process)
    (hr : Reachable rt w0) (hi : w0.lib.m_initialized = true)
    (hsA : Relation.ReflTransGen (Step rt) w0 wA) (hsB : Relation.ReflTransGen (Step rt) w0 wB)
    (A B : Nat) (hA : A < w0.lib.m_infos.length) (hB : B < w0.lib.m_infos.length)
    (recvPeerA recvBufA recvSizeA sendBufA sendSizeA : Nat)
    (recvBufB recvSizeB sendPeerB sendBufB sendSizeB : Nat)
    (hP : sendPeerB < w0.lib.m_infos.length) :
    ∃ (dA dB : WorkInfo) (eA eB : GpuCommLib),
      enqueueSendRecv wA.lib A recvPeerA recvBufA recvSizeA B sendBufA sendSizeA =
        .ok (.OK, eA) ∧
      pendingOf eA A = pendingOf wA.lib A ++ [dA] ∧
      enqueueSendRecv wB.lib B A recvBufB recvSizeB sendPeerB sendBufB sendSizeB =
        .ok (.OK, eB) ∧
      pendingOf eB B = pendingOf wB.lib B ++ [dB] ∧
      dA.sendItem.exchangeBuf = exchangeOf w0.lib B + 8 * (2 * A) ∧
      dB.recvItem.exchangeBuf = exchangeOf w0.lib B + 8 * (2 * A) ∧
      dA.sendItem.exchangeBuf = dB.recvItem.exchangeBuf ∧
      dA.targetBuf = 0 ∧ dB.targetBuf = 0 := by
  obtain ⟨a1, a2, a3⟩ := Steps_initialized rt w0 wA hsA hi
  obtain ⟨b1, b2, b3⟩ := Steps_initialized rt w0 wB hsB hi
  have hN := Reachable_bound rt w0 hr hi
  have hu : u32 (A * 2) = 2 * A := by rw [u32_of_lt _ (by omega)]; omega
  have exA : exchangeOf wA.lib B = exchangeOf w0.lib B := by simp only [exchangeOf, a3]
  have exB : exchangeOf wB.lib B = exchangeOf w0.lib B := by simp only [exchangeOf, b3]
  obtain ⟨eA, hA1, _, _, hA2, _⟩ := enqueueSendRecv_appended wA.lib A recvPeerA recvBufA
    recvSizeA B sendBufA sendSizeA a1 (by omega) (by omega)
  obtain ⟨eB, hB1, _, _, hB2, _⟩ := enqueueSendRecv_appended wB.lib B A recvBufB
    recvSizeB sendPeerB sendBufB sendSizeB b1 (by omega) (by omega)
  refine ⟨_, _, eA, eB, hA1, hA2, hB1, hB2, ?_, ?_, ?_, rfl, rfl⟩
  · simp only [hu, exA]
  · simp only [hu, exB]
  · simp only [hu, exA, exB]

/-- Claim C4 on the two-device engine, `A = 0` and `B = 1`, both calls right after `init`. -/
theorem enqueueSendRecv_slot_agreement_witness :
    ∃ (dA dB : WorkInfo) (eA eB : GpuCommLib),
      enqueueSendRecv exInitialized.lib 0 1 65536 64 1 131072 64 = .ok (.OK, eA) ∧
      pendingOf eA 0 = pendingOf exInitialized.lib 0 ++ [dA] ∧
      enqueueSendRecv exInitialized.lib 1 0 65536 64 0 131072 64 = .ok (.OK, eB) ∧
      pendingOf eB 1 = pendingOf exInitialized.lib 1 ++ [dB] ∧
      dA.sendItem.exchangeBuf = exchangeOf exInitialized.lib 1 + 8 * (2 * 0) ∧
      dB.recvItem.exchangeBuf = exchangeOf exInitialized.lib 1 + 8 * (2 * 0) ∧
      dA.sendItem.exchangeBuf = dB.recvItem.exchangeBuf ∧
      dA.targetBuf = 0 ∧ dB.targetBuf = 0 :=
  enqueueSendRecv_slot_agreement exRuntime exInitialized exInitialized exInitialized
    Reachable_exInitialized rfl Relation.ReflTransGen.refl Relation.ReflTransGen.refl 0 1
    (by decide) (by decide) 1 65536 64 131072 64 65536 64 0 131072 64 (by decide)

/-- Claim C5. `enqueueSendRecv` returns `NotInitialized` and the unchanged engine when the
engine is not initialised; returns `InvalidParams` and the unchanged engine when it is
initialised and `ID` is not below the number of devices; and when it is initialised, `ID` and
the peers are in range, it returns `OK`, the pending list of `ID` is the old one followed by
one descriptor, and every other device context is unchanged. -/
theorem enqueueSendRecv_results (e : GpuCommLib)
    (ID recvPeer recvBuf recvSize sendPeer sendBuf sendSize : Nat) :
    (e.m_initialized = false →
      enqueueSendRecv e ID recvPeer recvBuf recvSize sendPeer sendBuf sendSize =
        .ok (.NotInitialized, e)) ∧
    (e.m_initialized = true → e.m_infos.length ≤ ID →
      enqueueSendRecv e ID recvPeer recvBuf recvSize sendPeer sendBuf sendSize =
        .ok (.InvalidParams, e)) ∧
    (e.m_initialized = true → ID < e.m_infos.length → recvPeer < e.m_infos.length →
      sendPeer < e.m_infos.length →
      ∃ (d : WorkInfo) (e1 : GpuCommLib),
        enqueueSendRecv e ID recvPeer recvBuf recvSize sendPeer sendBuf sendSize =
          .ok (.OK, e1) ∧
        e1.m_infos.length = e.m_infos.length ∧
        pendingOf e1 ID = pendingOf e ID ++ [d] ∧
        ∀ j, j ≠ ID → e1.m_infos[j]? = e.m_infos[j]? ∧ pendingOf e1 j = pendingOf e j) := by
  refine ⟨?_, ?_, ?_⟩
  · intro hi
    unfold enqueueSendRecv
    rw [if_pos (by simp [hi])]
  · intro hi hID
    unfold enqueueSendRecv
    rw [if_neg (by simp [hi]), if_pos hID]
  · intro hi hID _ hP
    obtain ⟨e1, h1, _, h3, h4, h5⟩ := enqueueSendRecv_appended e ID recvPeer recvBuf recvSize
      sendPeer sendBuf sendSize hi hID hP
    refine ⟨_, e1, h1, h3, h4, ?_⟩
    intro j hj
    refine ⟨h5 j hj, ?_⟩
    simp only [pendingOf, List.getD_eq_getElem?_getD, List.getElem?_map, h5 j hj]

/-- Claim C5 on concrete engines: before `init`, with the id 2 of a two-device engine, and
with the id 0. -/
theorem enqueueSendRecv_results_witness :
    enqueueSendRecv (Process.fresh 0).lib 0 1 65536 64 1 131072 64 =
      .ok (.NotInitialized, (Process.fresh 0).lib) ∧
    enqueueSendRecv exInitialized.lib 2 1 65536 64 1 131072 64 =
      .ok (.InvalidParams, exInitialized.lib) ∧
    ∃ (d : WorkInfo) (e1 : GpuCommLib),
      enqueueSendRecv exInitialized.lib 0 1 65536 64 1 131072 64 = .ok (.OK, e1) ∧
      e1.m_infos.length = exInitialized.lib.m_infos.length ∧
      pendingOf e1 0 = pendingOf exInitialized.lib 0 ++ [d] ∧
      ∀ j, j ≠ 0 → e1.m_infos[j]? = exInitialized.lib.m_infos[j]? ∧
        pendingOf e1 j = pendingOf exInitialized.lib j :=
  ⟨(enqueueSendRecv_results (Process.fresh 0).lib 0 1 65536 64 1 131072 64).1 rfl,
    (enqueueSendRecv_results exInitialized.lib 2 1 65536 64 1 131072 64).2.1 rfl (by decide),
    (enqueueSendRecv_results exInitialized.lib 0 1 65536 64 1 131072 64).2.2 rfl (by decide)
      (by decide) (by decide)⟩

/-- Claim C6 fails on the code: `run` has neither the `m_initialized` check nor the range check
of `enqueueSendRecv`. Before `init` the call `run(0, stream)` indexes the empty `m_infos`, and
on the two-device engine `run(2, stream)` indexes past its end; neither returns a result. -/
theorem run_has_no_checks :
    run exRuntime (Process.fresh 0) 0 0 = .error .undefinedBehaviour ∧
    run exRuntime exInitialized 2 0 = .error .undefinedBehaviour ∧
    enqueueSendRecv (Process.fresh 0).lib 0 1 65536 64 1 131072 64 =
      .ok (.NotInitialized, (Process.fresh 0).lib) ∧
    enqueueSendRecv exInitialized.lib 2 1 65536 64 1 131072 64 =
      .ok (.InvalidParams, exInitialized.lib) :=
  ⟨rfl, rfl, rfl, rfl⟩

/-- Claim C7 fails on the code: after `init(2)` and thirteen enqueue calls for device 0 (a
reachable state), the capacity is 8, and the reallocation of `run` asks for `8 * 3 / 2 = 12`
descriptors, fewer than the 13 pending ones. -/
theorem run_grows_from_old_capacity :
    Reachable exRuntime exPending13 ∧
    ∃ (info info1 : ThreadInfo) (k : Nat),
      exPending13.lib.m_infos[0]? = some info ∧
      info.numDevWorkItems = 8 ∧ info.workItems.length = 13 ∧
      growWorkBuf exRuntime info exPending13.nAllocs = .ok (info1, k) ∧
      info1.numDevWorkItems = 12 ∧ info1.workItems.length = 13 :=
  ⟨Reachable_enqueueN exRuntime exInitialized Reachable_exInitialized 13,
    _, _, _, rfl, by decide, by decide, rfl, by decide, by decide⟩

/-- Claim C8 fails on the code: with thirteen descriptors enqueued for device 0 since `init`,
`run(0, stream)` copies 13 descriptors into a device buffer reallocated for 12, and does not
return `OK`; with twelve, it returns `OK`, launches 12 groups and empties the list. -/
theorem run_overruns_device_buffer :
    (pendingOf exPending13.lib 0).length = 13 ∧
    run exRuntime exPending13 0 0 = .error .undefinedBehaviour ∧
    (run exRuntime { exInitialized with lib := enqueueN exInitialized.lib 12 } 0 0).toOption.map
      (fun r => (r.1, pendingOf r.2.1.lib 0, r.2.2.map fun op =>
        match op with
        | .memcpyHostToDevice _ items _ => items.length
        | .launch nBlocks _ _ _ => nBlocks)) = some (.OK, [], [12, 12]) :=
  ⟨by decide, rfl, by decide⟩

/-- Claim C9 fails on the code: the load step reads `((uint64_t *)gworkInfo)[tid]` without an
offset for the group, so with two descriptors in the device buffer the shared descriptor of
group 1 is descriptor 0 and not descriptor 1. -/
theorem rcclKernel_load_ignores_group :
    rcclKernel_loadAll s_numWorkThreads (deviceWords [exWork 8, exWork 13]) 1
      (List.replicate s_num 0) = (exWork 8).toWords ∧
    rcclKernel_loadAll s_numWorkThreads (deviceWords [exWork 8, exWork 13]) 1
      (List.replicate s_num 0) ≠ (exWork 13).toWords := by
  set_option maxRecDepth 20000 in decide

/-- Claim C10. Once a call `init(n)` has returned, every later call `init(m)`, after any
number of further host calls, returns `OK` and leaves the whole process state as it is; the
first call returned `OK` too. -/
theorem init_idempotent (rt : Runtime) (w w1 w2 : Process) (n : Nat) (r : QCCL_Result)
    (h : init rt n w = .ok (r, w1)) (hs : Relation.ReflTransGen (Step rt) w1 w2) (m : Nat) :
    r = .OK ∧ init rt m w2 = .ok (.OK, w2) := by
  obtain ⟨h1, h2, _, _⟩ := init_ok rt n w w1 r h
  have h3 := (Steps_initialized rt w1 w2 hs h2).1
  refine ⟨h1, ?_⟩
  unfold init
  rw [if_pos h3]

/-- Claim C10 on the two-device engine: `init(5)` after `init(2)`. -/
theorem init_idempotent_witness :
    init exRuntime 2 (Process.fresh 0) = .ok (.OK, exInitialized) ∧
    init exRuntime 5 exInitialized = .ok (.OK, exInitialized) :=
  ⟨rfl, (init_idempotent exRuntime (Process.fresh 0) exInitialized exInitialized 2 .OK rfl
    Relation.ReflTransGen.refl 5).2⟩

/-! ## Words in memory -/

theorem LOAD_congr (w : Nat) : ∀ (m1 m2 : Mem) (a : Nat),
    (∀ j, j < w → m1 (a + j) = m2 (a + j)) → LOAD m1 a w = LOAD m2 a w := by
  induction w with
  | zero => intro m1 m2 a _; rfl
  | succ w ih =>
    intro m1 m2 a h
    simp only [LOAD]
    have h0 := h 0 (by omega)
    rw [Nat.add_zero] at h0
    rw [h0, ih m1 m2 (a + 1) (fun j hj => by
      have := h (j + 1) (by omega)
      rw [show a + 1 + j = a + (j + 1) by omega]
      exact this)]

theorem LOAD_lt (w : Nat) : ∀ (mem : Mem) (a : Nat), LOAD mem a w < 256 ^ w := by
  induction w with
  | zero => intro mem a; simp [LOAD]
  | succ w ih =>
    intro mem a
    simp only [LOAD]
    have h1 := ih mem (a + 1)
    have h2 := (mem a).isLt
    rw [pow_succ]
    omega

theorem LOAD_STORE_same (w : Nat) : ∀ (v : Nat) (mem : Mem) (a : Nat),
    LOAD (STORE v mem a w) a w = v % 256 ^ w := by
  induction w with
  | zero => intro v mem a; simp [LOAD, Nat.mod_one]
  | succ w ih =>
    intro v mem a
    simp only [LOAD, STORE]
    rw [STORE_outside w _ _ _ _ (Or.inl (by omega)), ih]
    rw [Function.update_same, pow_succ, Nat.mul_comm (256 ^ w) 256, Nat.mod_mul]

theorem LOAD_STORE_disjoint (w w2 : Nat) (v : Nat) (mem : Mem) (a b : Nat)
    (h : b + w2 ≤ a ∨ a + w ≤ b) : LOAD (STORE v mem b w2) a w = LOAD mem a w := by
  apply LOAD_congr
  intro j hj
  apply STORE_outside
  omega

theorem LOAD_STORE_word (v : Nat) (mem : Mem) (a : Nat) (h : v < 2 ^ 64) :
    LOAD (STORE v mem a 8) a 8 = v := by
  rw [LOAD_STORE_same]
  exact Nat.mod_eq_of_lt (by norm_num at h ⊢; exact h)


/-! ## The pointer handshake -/

theorem setupRecvPtrs_publish_cell (wR : WorkInfo) (mem : Mem)
    (hp : wR.recvItem.dataBuf < 2 ^ 64) (hc : wR.recvItem.exchangeBuf < 2 ^ 64) :
    (setupRecvPtrs_step wR 0 .publish mem).1 = .done ∧
    LOAD (setupRecvPtrs_step wR 0 .publish mem).2 wR.recvItem.exchangeBuf 8 =
      wR.recvItem.dataBuf ^^^ wR.recvItem.exchangeBuf := by
  simp only [setupRecvPtrs_step, if_true, true_and]
  exact LOAD_STORE_word _ _ _ (Nat.xor_lt_two_pow hp hc)

theorem setupSendPtrs_spin_empty (wS : WorkInfo) (mem : Mem)
    (h : LOAD mem wS.sendItem.exchangeBuf 8 = 0) :
    setupSendPtrs_step wS 0 .spin mem = (.spin, wS, mem) := by
  simp [setupSendPtrs_step, h]

theorem setupSendPtrs_spin_full (wS : WorkInfo) (mem : Mem)
    (h : LOAD mem wS.sendItem.exchangeBuf 8 ≠ 0) :
    setupSendPtrs_step wS 0 .spin mem =
      (.decode (LOAD mem wS.sendItem.exchangeBuf 8), wS, mem) := by
  simp [setupSendPtrs_step, h]

theorem setupSendPtrs_run_empty (wS : WorkInfo) (mem : Mem)
    (h : LOAD mem wS.sendItem.exchangeBuf 8 = 0) :
    ∀ n, setupSendPtrs_run 0 n wS .spin mem = (.spin, wS, mem) := by
  intro n
  induction n with
  | zero => rfl
  | succ n ih =>
    simp only [setupSendPtrs_run, setupSendPtrs_spin_empty wS mem h]
    exact ih

theorem setupSendPtrs_run_full (wS : WorkInfo) (mem : Mem)
    (h : LOAD mem wS.sendItem.exchangeBuf 8 ≠ 0) :
    setupSendPtrs_run 0 3 wS .spin mem =
      (.done,
        { wS with
          targetBuf := LOAD mem wS.sendItem.exchangeBuf 8 ^^^ wS.sendItem.exchangeBuf },
        STORE 0 mem wS.sendItem.exchangeBuf 8) := by
  simp only [setupSendPtrs_run, setupSendPtrs_spin_full wS mem h]
  simp [setupSendPtrs_step]


/-- Claim C11 fails as stated: for the non-zero cell address `2 ^ 31` and the destination
`p = 2 ^ 31`, the value `setupRecvPtrs` publishes reads as the empty value 0, and the spin of
`setupSendPtrs` is still spinning on the unchanged state after a million reads. -/
theorem setupRecvPtrs_own_address_counterexample :
    (exPeer (2 ^ 31)).recvItem.exchangeBuf ≠ 0 ∧
    (exPeer (2 ^ 31)).recvItem.dataBuf = (exPeer (2 ^ 31)).recvItem.exchangeBuf ∧
    LOAD (setupRecvPtrs_step (exPeer (2 ^ 31)) 0 .publish exMem).2 (2 ^ 31) 8 = 0 ∧
    setupSendPtrs_run 0 1000000 exSend .spin
        (setupRecvPtrs_step (exPeer (2 ^ 31)) 0 .publish exMem).2 =
      (.spin, exSend, (setupRecvPtrs_step (exPeer (2 ^ 31)) 0 .publish exMem).2) := by
  have h : LOAD (setupRecvPtrs_step (exPeer (2 ^ 31)) 0 .publish exMem).2 (2 ^ 31) 8 = 0 :=
    (setupRecvPtrs_publish_cell (exPeer (2 ^ 31)) exMem (by decide) (by decide)).2.trans
      (by decide)
  exact ⟨by decide, rfl, h, setupSendPtrs_run_empty exSend _ h 1000000⟩

/-- Claim C11, amended. For a 64-bit cell address `c`, zero or not, and a 64-bit destination
address `p`, the cell reads `p XOR c` after the publishing store of `setupRecvPtrs`. When
`p ≠ c` (in particular for `p = 0` and a non-zero `c`) that value is not the empty value 0, and
`setupSendPtrs` on the same cell leaves its spin, decodes `p` into `targetBuf` and empties the
cell, in three steps. When `p = c` the cell reads 0 and the spin does not end. -/
theorem setupRecvPtrs_publish_nonempty (wR wS : WorkInfo) (mem : Mem)
    (hcell : wS.sendItem.exchangeBuf = wR.recvItem.exchangeBuf)
    (hp : wR.recvItem.dataBuf < 2 ^ 64) (hc : wR.recvItem.exchangeBuf < 2 ^ 64) :
    LOAD (setupRecvPtrs_step wR 0 .publish mem).2 wR.recvItem.exchangeBuf 8 =
      wR.recvItem.dataBuf ^^^ wR.recvItem.exchangeBuf ∧
    (wR.recvItem.dataBuf ≠ wR.recvItem.exchangeBuf →
      LOAD (setupRecvPtrs_step wR 0 .publish mem).2 wR.recvItem.exchangeBuf 8 ≠ 0 ∧
      (setupSendPtrs_run 0 3 wS .spin (setupRecvPtrs_step wR 0 .publish mem).2).1 = .done ∧
      (setupSendPtrs_run 0 3 wS .spin (setupRecvPtrs_step wR 0 .publish mem).2).2.1.targetBuf =
        wR.recvItem.dataBuf ∧
      LOAD (setupSendPtrs_run 0 3 wS .spin (setupRecvPtrs_step wR 0 .publish mem).2).2.2
        wR.recvItem.exchangeBuf 8 = 0) ∧
    (wR.recvItem.dataBuf = wR.recvItem.exchangeBuf →
      LOAD (setupRecvPtrs_step wR 0 .publish mem).2 wR.recvItem.exchangeBuf 8 = 0 ∧
      ∀ n, (setupSendPtrs_run 0 n wS .spin (setupRecvPtrs_step wR 0 .publish mem).2).1 =
        .spin) := by
  have hv := (setupRecvPtrs_publish_cell wR mem hp hc).2
  refine ⟨hv, ?_, ?_⟩
  · intro hne
    have hnz : LOAD (setupRecvPtrs_step wR 0 .publish mem).2 wS.sendItem.exchangeBuf 8 ≠ 0 := by
      rw [hcell, hv]
      exact Nat.xor_ne_zero.2 hne
    rw [setupSendPtrs_run_full wS _ hnz]
    refine ⟨by rw [← hcell]; exact hnz, rfl, ?_, ?_⟩
    · simp only [hcell, hv, Nat.xor_cancel_right]
    · simp only [hcell]
      exact LOAD_STORE_word 0 _ _ (by norm_num)
  · intro heq
    have hz : LOAD (setupRecvPtrs_step wR 0 .publish mem).2 wS.sendItem.exchangeBuf 8 = 0 := by
      rw [hcell, hv, heq, Nat.xor_self]
    refine ⟨by rw [← hcell]; exact hz, fun n => ?_⟩
    rw [setupSendPtrs_run_empty wS _ hz n]

/-- Claim C11, amended, for the null destination `p = 0` and the cell at `2 ^ 31`. -/
theorem setupRecvPtrs_publish_nonempty_witness :
    LOAD (setupRecvPtrs_step (exPeer 0) 0 .publish exMem).2 (exPeer 0).recvItem.exchangeBuf 8
      ≠ 0 ∧
    (setupSendPtrs_run 0 3 exSend .spin
      (setupRecvPtrs_step (exPeer 0) 0 .publish exMem).2).1 = .done ∧
    (setupSendPtrs_run 0 3 exSend .spin
      (setupRecvPtrs_step (exPeer 0) 0 .publish exMem).2).2.1.targetBuf = 0 ∧
    LOAD (setupSendPtrs_run 0 3 exSend .spin
      (setupRecvPtrs_step (exPeer 0) 0 .publish exMem).2).2.2 (exPeer 0).recvItem.exchangeBuf 8
      = 0 :=
  (setupRecvPtrs_publish_nonempty (exPeer 0) exSend exMem rfl (by decide) (by decide)).2.1
    (by decide)

/-- Claim C13. For every 64-bit destination address `p` and every 64-bit cell address `c`, the
decoding step of `setupSendPtrs`, applied to the value that the publishing store of
`setupRecvPtrs` leaves in the cell, sets `targetBuf` to `p`, the `dataBuf` of the receiver. -/
theorem setupSendPtrs_decodes_published (wR wS : WorkInfo) (mem : Mem)
    (hcell : wS.sendItem.exchangeBuf = wR.recvItem.exchangeBuf)
    (hp : wR.recvItem.dataBuf < 2 ^ 64) (hc : wR.recvItem.exchangeBuf < 2 ^ 64) :
    LOAD (setupRecvPtrs_step wR 0 .publish mem).2 wR.recvItem.exchangeBuf 8 =
      wR.recvItem.dataBuf ^^^ wR.recvItem.exchangeBuf ∧
    (setupSendPtrs_step wS 0
      (.decode (LOAD (setupRecvPtrs_step wR 0 .publish mem).2 wS.sendItem.exchangeBuf 8))
      (setupRecvPtrs_step wR 0 .publish mem).2).2.1.targetBuf = wR.recvItem.dataBuf := by
  have hv := (setupRecvPtrs_publish_cell wR mem hp hc).2
  refine ⟨hv, ?_⟩
  simp only [setupSendPtrs_step, if_true, hcell, hv, Nat.xor_cancel_right]

/-- Claim C13 for the destination `2 ^ 22` and the cell at `2 ^ 31`. -/
theorem setupSendPtrs_decodes_published_witness :
    LOAD (setupRecvPtrs_step (exPeer (2 ^ 22)) 0 .publish exMem).2 (2 ^ 31) 8 =
      2 ^ 22 ^^^ 2 ^ 31 ∧
    (setupSendPtrs_step exSend 0
      (.decode (LOAD (setupRecvPtrs_step (exPeer (2 ^ 22)) 0 .publish exMem).2 (2 ^ 31) 8))
      (setupRecvPtrs_step (exPeer (2 ^ 22)) 0 .publish exMem).2).2.1.targetBuf = 2 ^ 22 :=
  setupSendPtrs_decodes_published (exPeer (2 ^ 22)) exSend exMem rfl (by decide) (by decide)

/-! ## The completion phase -/

theorem rcclKernel_signal_step (BlockSz NumRegs : Nat) (w : WorkInfo) (tid : Nat)
    (st : DevState) :
    (rcclKernel_step BlockSz NumRegs w tid .signal st).2.stores =
      st.stores ++ [(w.sendItem.exchangeBuf + 8, 4)] ∧
    LOAD (rcclKernel_step BlockSz NumRegs w tid .signal st).2.mem (w.sendItem.exchangeBuf + 8) 4 =
      11111 := by
  refine ⟨rfl, ?_⟩
  simp only [rcclKernel_step]
  rw [LOAD_STORE_same]
  decide

theorem rcclKernel_signalAll_stores (BlockSz NumRegs : Nat) (w : WorkInfo) :
    ∀ (lanes : List Nat) (st : DevState),
    (rcclKernel_signalAll BlockSz NumRegs w lanes st).stores =
      st.stores ++ List.replicate lanes.length (w.sendItem.exchangeBuf + 8, 4) := by
  intro lanes
  induction lanes with
  | nil => intro st; simp [rcclKernel_signalAll]
  | cons t l ih =>
    intro st
    have := ih (rcclKernel_step BlockSz NumRegs w t .signal st).2
    simp only [rcclKernel_signalAll, List.foldl_cons] at this ⊢
    rw [this, (rcclKernel_signal_step BlockSz NumRegs w t st).1, List.append_assoc]
    rfl

theorem countP_covers_replicate (a n : Nat) :
    List.countP (covers a) (List.replicate n (a, 4)) = n := by
  induction n with
  | zero => rfl
  | succ n ih =>
    rw [List.replicate_succ, List.countP_cons, ih]
    simp [covers]

/-- What the completion phase does for any lane: the signal step stores the sentinel 11111
into the send-side completion flag `sendItem.exchangeBuf + 1`, whatever the lane, so the 512
lanes of a group perform 512 such stores; the lane goes on to spin on the receive-side
completion flag `recvItem.exchangeBuf + 1` exactly when it is lane 0; and the spin of lane 0
ends exactly when it reads 11111. -/
theorem rcclKernel_signal_every_lane (w : WorkInfo) (tid : Nat) (st : DevState) :
    ((rcclKernel_step s_numWorkThreads s_numRegsPerThread w tid .signal st).2.stores =
        st.stores ++ [(w.sendItem.exchangeBuf + 8, 4)] ∧
      LOAD (rcclKernel_step s_numWorkThreads s_numRegsPerThread w tid .signal st).2.mem
        (w.sendItem.exchangeBuf + 8) 4 = 11111) ∧
    List.countP (covers (w.sendItem.exchangeBuf + 8))
      (rcclKernel_signalAll s_numWorkThreads s_numRegsPerThread w
        (List.range s_numWorkThreads) ⟨st.mem, []⟩).stores = 512 ∧
    ((rcclKernel_step s_numWorkThreads s_numRegsPerThread w tid .signal st).1 = .wait ↔
      tid = 0) ∧
    ((rcclKernel_step s_numWorkThreads s_numRegsPerThread w tid .signal st).1 = .done ↔
      tid ≠ 0) ∧
    ((rcclKernel_step s_numWorkThreads s_numRegsPerThread w 0 .wait st).1 = .done ↔
      LOAD st.mem (w.recvItem.exchangeBuf + 8) 4 = 11111) ∧
    (rcclKernel_step s_numWorkThreads s_numRegsPerThread w 0 .wait st).2 = st := by
  refine ⟨rcclKernel_signal_step _ _ _ _ _, ?_, ?_, ?_, ?_, ?_⟩
  · rw [rcclKernel_signalAll_stores, List.nil_append, countP_covers_replicate,
      List.length_range]
    rfl
  · by_cases h : tid = 0 <;> simp [rcclKernel_step, h]
  · by_cases h : tid = 0 <;> simp [rcclKernel_step, h]
  · by_cases h : LOAD st.mem (w.recvItem.exchangeBuf + 8) 4 = 11111 <;>
      simp [rcclKernel_step, h]
  · by_cases h : LOAD st.mem (w.recvItem.exchangeBuf + 8) 4 = 11111 <;>
      simp [rcclKernel_step, h]

/-- Claim C15 fails on the code: the store of the sentinel is outside the `if(tid == 0)` that
guards the spin, so a group of 512 lanes performs it 512 times; lane 1, for instance, stores
it and returns without spinning. The extra stores defeat the flag that `setupRecvPtrs` resets
at the start of a round. After `exLateSchedule` the lanes that own the payload have copied it
(bytes 0, 512 and 1023 are shown), lane 0 has stored the sentinel and the receiver has
finished its round; the receiver then resets its flag
for the next round (the flag reads 0); lane 1 of the sender, still in the first round, stores
its sentinel (the flag reads 11111 again); and the wait of the receiver's next round ends at
once although no byte of its new destination buffer at `2 ^ 23` has been written. -/
theorem rcclKernel_signal_unguarded :
    (List.countP (covers ((exWork 1024).sendItem.exchangeBuf + 8))
        (rcclKernel_signalAll s_numWorkThreads s_numRegsPerThread (exWork 1024)
          (List.range s_numWorkThreads) ⟨exMem, []⟩).stores = 512 ∧
      (rcclKernel_step s_numWorkThreads s_numRegsPerThread (exWork 1024) 1 .signal
        ⟨exMem, []⟩).2.stores = [((exWork 1024).sendItem.exchangeBuf + 8, 4)] ∧
      LOAD exMem ((exWork 1024).sendItem.exchangeBuf + 8) 4 = 0 ∧
      LOAD (rcclKernel_step s_numWorkThreads s_numRegsPerThread (exWork 1024) 1 .signal
        ⟨exMem, []⟩).2.mem ((exWork 1024).sendItem.exchangeBuf + 8) 4 = 11111 ∧
      (rcclKernel_step s_numWorkThreads s_numRegsPerThread (exWork 1024) 1 .signal
        ⟨exMem, []⟩).1 = .done) ∧
    (exLateState.receiver = .done ∧
      exLateState.sender[0]? = some .wait ∧ exLateState.sender[1]? = some .signal ∧
      exLateState.dev.mem ((exWork 1024).targetBuf + 0) =
        exMem ((exWork 1024).sendItem.dataBuf + 0) ∧
      exLateState.dev.mem ((exWork 1024).targetBuf + 512) =
        exMem ((exWork 1024).sendItem.dataBuf + 512) ∧
      exLateState.dev.mem ((exWork 1024).targetBuf + 1023) =
        exMem ((exWork 1024).sendItem.dataBuf + 1023)) ∧
    ((exPeer (2 ^ 23)).recvItem.exchangeBuf = (exWork 1024).sendItem.exchangeBuf ∧
      LOAD exResetMem ((exPeer (2 ^ 23)).recvItem.exchangeBuf + 8) 4 = 0 ∧
      LOAD exLateStore.mem ((exPeer (2 ^ 23)).recvItem.exchangeBuf + 8) 4 = 11111 ∧
      (rcclKernel_step s_numWorkThreads s_numRegsPerThread (exPeer (2 ^ 23)) 0 .wait
        exLateStore).1 = .done ∧
      exLateStore.mem (exPeer (2 ^ 23)).recvItem.dataBuf =
        exMem (exPeer (2 ^ 23)).recvItem.dataBuf ∧
      exLateStore.mem (exPeer (2 ^ 23)).recvItem.dataBuf ≠
        exMem (exWork 1024).sendItem.dataBuf) := by
  refine ⟨⟨?_, rfl, by decide, (rcclKernel_signal_step _ _ _ _ _).2, rfl⟩, ?_, ?_⟩
  · rw [rcclKernel_signalAll_stores, List.nil_append, countP_covers_replicate,
      List.length_range]
    rfl
  · set_option maxRecDepth 100000 in decide
  · set_option maxRecDepth 100000 in decide

/-! ## One cell over several rounds -/

theorem CellInv_init (c : Nat) (pubs : List WorkInfo) (mem : Mem) (v : WorkInfo)
    (hv : v.sendItem.exchangeBuf = c) (hm : LOAD mem c 8 = 0) :
    CellInv c pubs (cellInit mem v) := by
  refine ⟨hv, Or.inl ⟨rfl, hm⟩, ?_, ?_, ?_, ?_⟩
  · intro h; cases h
  · intro ptr h; cases h
  · intro h; cases h
  · intro h; cases h

theorem CellInv_publisher (c : Nat) (pubs cons : List WorkInfo)
    (hr : CellRounds c pubs cons) (s : CellState) (hs : CellInv c pubs s) :
    CellInv c pubs (cellStep pubs cons .publisher s) := by
  obtain ⟨mem, pi, ppc, ci, cpc, sw⟩ := s
  obtain ⟨j1, j2, j3, j4, j5, j6⟩ := hs
  simp only [pubCount, conCount] at j1 j2 j3 j4 j5 j6
  cases ppc with
  | done =>
    simp only [cellStep, if_true]
    split
    · refine ⟨j1, ?_, ?_, ?_, ?_, j6⟩
      · simpa [pubCount, conCount] using j2
      · intro h; cases h
      · simpa [pubCount, conCount] using j4
      · simpa [pubCount, conCount] using j5
    · exact ⟨j1, j2, j3, j4, j5, j6⟩
  | reset =>
    simp only [cellStep, reduceCtorEq, if_false]
    split
    · rename_i w hw
      have hwc := (hr.2.1 w (List.getElem?_mem hw)).1
      have hl : LOAD (STORE 0 mem (w.recvItem.exchangeBuf + 8) 4) c 8 = LOAD mem c 8 := by
        apply LOAD_STORE_disjoint
        omega
      refine ⟨j1, ?_, ?_, ?_, ?_, j6⟩
      · simpa [pubCount, conCount, setupRecvPtrs_step, hl] using j2
      · intro h; simp [setupRecvPtrs_step] at h
      · simpa [pubCount, conCount, setupRecvPtrs_step, hl] using j4
      · simpa [pubCount, conCount, setupRecvPtrs_step] using j5
    · exact ⟨j1, j2, j3, j4, j5, j6⟩
  | spin =>
    simp only [cellStep, reduceCtorEq, if_false]
    split
    · rename_i w hw
      have hwc := (hr.2.1 w (List.getElem?_mem hw)).1
      by_cases hz : LOAD mem c 8 = 0
      · have hstep : setupRecvPtrs_step w 0 .spin mem = (.publish, mem) := by
          simp [setupRecvPtrs_step, hwc, hz]
        rw [hstep]
        have hlevel : pi + 0 = ci + if cpc = SendPc.done then 1 else 0 := by
          rcases j2 with ⟨h, _⟩ | ⟨_, w1, hw1, hl⟩
          · simpa using h
          · exfalso
            rw [hz] at hl
            exact (hr.2.1 w1 (List.getElem?_mem hw1)).2.2 (Nat.xor_eq_zero.1 hl.symm)
        refine ⟨j1, ?_, ?_, ?_, ?_, j6⟩
        · simpa [pubCount, conCount] using j2
        · intro _; simpa [pubCount, conCount] using hlevel
        · simpa [pubCount, conCount] using j4
        · simpa [pubCount, conCount] using j5
      · have hstep : setupRecvPtrs_step w 0 .spin mem = (.spin, mem) := by
          simp [setupRecvPtrs_step, hwc, hz]
        rw [hstep]
        exact ⟨j1, j2, j3, j4, j5, j6⟩
    · exact ⟨j1, j2, j3, j4, j5, j6⟩
  | publish =>
    simp only [cellStep, reduceCtorEq, if_false]
    have hlevel := j3 rfl
    simp only [reduceCtorEq, if_false, Nat.add_zero] at hlevel
    split
    · rename_i w hw
      obtain ⟨hwc, hwp, _⟩ := hr.2.1 w (List.getElem?_mem hw)
      have hstep : (setupRecvPtrs_step w 0 .publish mem).1 = .done := rfl
      have hl : LOAD (setupRecvPtrs_step w 0 .publish mem).2 c 8 = w.recvItem.dataBuf ^^^ c := by
        have := (setupRecvPtrs_publish_cell w mem hwp (by rw [hwc]; exact hr.1)).2
        rw [hwc] at this
        exact this
      refine ⟨j1, Or.inr ⟨?_, w, ?_, ?_⟩, ?_, ?_, ?_, j6⟩
      · simp only [pubCount, conCount, hstep, if_true]
        omega
      · simp only [conCount]
        rw [← hlevel]
        exact hw
      · exact hl
      · intro h; rw [hstep] at h; cases h
      · intro ptr h
        have := (j4 ptr h).1
        simp only [reduceCtorEq, if_false] at this
        omega
      · intro h
        have := (j5 h).1
        simp only [reduceCtorEq, if_false] at this
        omega
    · exact ⟨j1, j2, j3, j4, j5, j6⟩


theorem cellStep_consumer_running (pubs cons : List WorkInfo) (s : CellState)
    (h : s.conPc ≠ .done) :
    cellStep pubs cons .consumer s =
      { s with
        conPc := (setupSendPtrs_step s.s_workInfo 0 s.conPc s.mem).1,
        s_workInfo := (setupSendPtrs_step s.s_workInfo 0 s.conPc s.mem).2.1,
        mem := (setupSendPtrs_step s.s_workInfo 0 s.conPc s.mem).2.2 } := by
  unfold cellStep
  exact if_neg h

theorem CellInv_consumer (c : Nat) (pubs cons : List WorkInfo)
    (hr : CellRounds c pubs cons) (s : CellState) (hs : CellInv c pubs s) :
    CellInv c pubs (cellStep pubs cons .consumer s) := by
  obtain ⟨mem, pi, ppc, ci, cpc, sw⟩ := s
  obtain ⟨j1, j2, j3, j4, j5, j6⟩ := hs
  simp only [pubCount, conCount] at j1 j2 j3 j4 j5 j6
  cases cpc with
  | done =>
    simp only [cellStep, if_true]
    split
    · rename_i v hv
      refine ⟨hr.2.2 v (List.getElem?_mem hv), ?_, ?_, ?_, ?_, ?_⟩
      · simpa [pubCount, conCount] using j2
      · simpa [pubCount, conCount] using j3
      · intro ptr h; cases h
      · intro h; cases h
      · intro h; cases h
    · exact ⟨j1, j2, j3, j4, j5, j6⟩
  | spin =>
    rw [cellStep_consumer_running _ _ _ (by intro h; cases h)]
    simp only
    by_cases hz : LOAD mem c 8 = 0
    · have hstep : setupSendPtrs_step sw 0 .spin mem = (.spin, sw, mem) :=
        setupSendPtrs_spin_empty sw mem (by rw [j1]; exact hz)
      rw [hstep]
      exact ⟨j1, j2, j3, j4, j5, j6⟩
    · have hstep : setupSendPtrs_step sw 0 .spin mem = (.decode (LOAD mem c 8), sw, mem) := by
        have := setupSendPtrs_spin_full sw mem (by rw [j1]; exact hz)
        rw [j1] at this
        exact this
      rw [hstep]
      refine ⟨j1, ?_, ?_, ?_, ?_, ?_⟩
      · simpa [pubCount, conCount] using j2
      · simpa [pubCount, conCount] using j3
      · intro ptr h
        injection h with h
        refine ⟨?_, h.symm⟩
        rcases j2 with ⟨_, h0⟩ | ⟨h1, _⟩
        · exact absurd h0 hz
        · simpa [pubCount, conCount] using h1
      · intro h; cases h
      · intro h; cases h
  | decode ptr =>
    rw [cellStep_consumer_running _ _ _ (by intro h; cases h)]
    simp only
    obtain ⟨hcount, hptr⟩ := j4 ptr rfl
    simp only [reduceCtorEq, if_false, Nat.add_zero] at hcount
    have hstep : setupSendPtrs_step sw 0 (.decode ptr) mem =
        (.clear, { sw with targetBuf := ptr ^^^ sw.sendItem.exchangeBuf }, mem) := by
      simp [setupSendPtrs_step]
    rw [hstep]
    refine ⟨j1, ?_, ?_, ?_, ?_, ?_⟩
    · simpa [pubCount, conCount] using j2
    · simpa [pubCount, conCount] using j3
    · intro p h; cases h
    · intro _
      refine ⟨by simpa [pubCount, conCount] using hcount, ?_⟩
      rcases j2 with ⟨h0, _⟩ | ⟨_, w, hw, hl⟩
      · simp only [reduceCtorEq, if_false, Nat.add_zero] at h0
        omega
      · simp only [reduceCtorEq, if_false, Nat.add_zero] at hw
        refine ⟨w, hw, ?_⟩
        simp only [j1, hptr, hl, Nat.xor_cancel_right]
    · intro h; cases h
  | clear =>
    rw [cellStep_consumer_running _ _ _ (by intro h; cases h)]
    simp only
    obtain ⟨hcount, w, hw, ht⟩ := j5 rfl
    simp only [reduceCtorEq, if_false, Nat.add_zero] at hcount
    have hstep : setupSendPtrs_step sw 0 .clear mem =
        (.done, sw, STORE 0 mem sw.sendItem.exchangeBuf 8) := by
      simp [setupSendPtrs_step]
    rw [hstep]
    refine ⟨j1, Or.inl ⟨?_, ?_⟩, ?_, ?_, ?_, ?_⟩
    · simp only [pubCount, conCount, if_true]
      exact hcount
    · simp only [j1]
      exact LOAD_STORE_word 0 mem c (by norm_num)
    · intro _
      simp only [pubCount, conCount, if_true]
      exact hcount
    · intro p h; cases h
    · intro h; cases h
    · intro _; exact ⟨w, hw, ht⟩


theorem CellInv_step (c : Nat) (pubs cons : List WorkInfo) (hr : CellRounds c pubs cons)
    (s t : CellState) (hs : CellInv c pubs s) (h : CellStep pubs cons s t) :
    CellInv c pubs t := by
  obtain ⟨a, rfl⟩ := h
  cases a with
  | publisher => exact CellInv_publisher c pubs cons hr s hs
  | consumer => exact CellInv_consumer c pubs cons hr s hs

theorem CellInv_reachable (c : Nat) (pubs cons : List WorkInfo) (hr : CellRounds c pubs cons)
    (s0 s : CellState) (h0 : CellInv c pubs s0)
    (h : Relation.ReflTransGen (CellStep pubs cons) s0 s) : CellInv c pubs s := by
  induction h with
  | refl => exact h0
  | tail _ hstep ih => exact CellInv_step c pubs cons hr _ _ ih hstep

theorem cellRun_reachable (pubs cons : List WorkInfo) :
    ∀ (sched : List CellActor) (s0 : CellState),
    Relation.ReflTransGen (CellStep pubs cons) s0 (cellRun pubs cons sched s0) := by
  intro sched
  induction sched with
  | nil => intro s0; exact Relation.ReflTransGen.refl
  | cons a l ih =>
    intro s0
    exact Relation.ReflTransGen.head ⟨a, rfl⟩ (ih (cellStep pubs cons a s0))

theorem CellInv_pending (c : Nat) (pubs cons : List WorkInfo) (hr : CellRounds c pubs cons)
    (s : CellState) (hs : CellInv c pubs s) (h : pubCount s = conCount s + 1) :
    LOAD s.mem c 8 ≠ 0 := by
  rcases hs.2.1 with ⟨h0, _⟩ | ⟨_, w, hw, hl⟩
  · omega
  · rw [hl]
    exact Nat.xor_ne_zero.2 (hr.2.1 w (List.getElem?_mem hw)).2.2

/-- Claim C14. One pointer-exchange cell at `c`, empty at the start, with one publisher
(`setupRecvPtrs`, rounds `pubs`) and one consumer (`setupSendPtrs`, rounds `cons`), every
published destination being different from `c`. In every state reachable by steps of the two
parties: the publisher stands before its store only when the cell reads 0; the consumer holds
a read value or stands before its clearing store only when the cell is non-zero, the value it
holds is the one in the cell, and its clearing step leaves the cell at 0; and the target the
consumer has resolved in its round number `conIdx` is the destination published in that round:
in the second of two rounds it is the second destination. -/
theorem cell_slot_reuse (c : Nat) (pubs cons : List WorkInfo) (mem : Mem) (v : WorkInfo)
    (hr : CellRounds c pubs cons) (hv : v.sendItem.exchangeBuf = c) (hm : LOAD mem c 8 = 0)
    (s : CellState) (h : Relation.ReflTransGen (CellStep pubs cons) (cellInit mem v) s) :
    (s.pubPc = .publish → LOAD s.mem c 8 = 0) ∧
    (∀ ptr, s.conPc = .decode ptr → LOAD s.mem c 8 ≠ 0 ∧ ptr = LOAD s.mem c 8) ∧
    (s.conPc = .clear →
      LOAD s.mem c 8 ≠ 0 ∧ LOAD (cellStep pubs cons .consumer s).mem c 8 = 0) ∧
    (s.conPc = .clear ∨ s.conPc = .done →
      ∃ w, pubs[s.conIdx]? = some w ∧ s.s_workInfo.targetBuf = w.recvItem.dataBuf) := by
  have hi := CellInv_reachable c pubs cons hr _ s (CellInv_init c pubs mem v hv hm) h
  refine ⟨?_, ?_, ?_, ?_⟩
  · intro hp
    have hlevel := hi.2.2.1 hp
    rcases hi.2.1 with ⟨_, h0⟩ | ⟨h1, _⟩
    · exact h0
    · omega
  · intro ptr hp
    obtain ⟨h1, h2⟩ := hi.2.2.2.1 ptr hp
    exact ⟨CellInv_pending c pubs cons hr s hi h1, h2⟩
  · intro hp
    refine ⟨CellInv_pending c pubs cons hr s hi (hi.2.2.2.2.1 hp).1, ?_⟩
    rw [cellStep_consumer_running _ _ _ (by rw [hp]; intro h; cases h)]
    simp only [hp, setupSendPtrs_step, if_true, hi.1]
    exact LOAD_STORE_word 0 _ _ (by norm_num)
  · intro hp
    rcases hp with hp | hp
    · exact (hi.2.2.2.2.1 hp).2
    · exact hi.2.2.2.2.2 hp

/-- Claim C14 on a complete run of two rounds with the destinations `2 ^ 22` and `2 ^ 23`: the
consumer ends its second round with the target `2 ^ 23`. -/
theorem cell_slot_reuse_witness :
    ((cellRun [exPeer (2 ^ 22), exPeer (2 ^ 23)] [exSend, exSend] exTwoRounds
        (cellInit exMem exSend)).conIdx = 1 ∧
      (cellRun [exPeer (2 ^ 22), exPeer (2 ^ 23)] [exSend, exSend] exTwoRounds
        (cellInit exMem exSend)).s_workInfo.targetBuf = 2 ^ 23) ∧
    ∃ w, [exPeer (2 ^ 22), exPeer (2 ^ 23)][(cellRun [exPeer (2 ^ 22), exPeer (2 ^ 23)]
        [exSend, exSend] exTwoRounds (cellInit exMem exSend)).conIdx]? = some w ∧
      (cellRun [exPeer (2 ^ 22), exPeer (2 ^ 23)] [exSend, exSend] exTwoRounds
        (cellInit exMem exSend)).s_workInfo.targetBuf = w.recvItem.dataBuf :=
  ⟨by decide,
    (cell_slot_reuse (2 ^ 31) [exPeer (2 ^ 22), exPeer (2 ^ 23)] [exSend, exSend] exMem exSend
      ⟨by decide, by decide, by decide⟩ rfl (by decide) _
      (cellRun_reachable _ _ exTwoRounds _)).2.2.2 (Or.inr (by decide))⟩

/-! ## Completion seen from the receiver -/

/-- Claim C12 fails on the code: no barrier separates the copy loops from the sentinel store
that every lane performs. With a payload of 1024 bytes, let the first wavefront (lanes 0 to 63)
of the sender group copy its slices and store the sentinel, and let lane 0 of the receiver
group then read its receive-side flag (the same cell, which read 0 before): it reads 11111 and
returns, while lane 64 of the sender group has not yet copied and byte 512 of the destination
buffer is not the source byte. -/
theorem rcclKernel_signals_before_copy_ends :
    (exPeer (2 ^ 22)).recvItem.exchangeBuf = (exWork 1024).sendItem.exchangeBuf ∧
    LOAD exMem ((exPeer (2 ^ 22)).recvItem.exchangeBuf + 8) 4 = 0 ∧
    (pairInit s_numWorkThreads exMem).receiver = .wait ∧
    (pairRun s_numWorkThreads s_numRegsPerThread (exWork 1024) (exPeer (2 ^ 22))
      exEarlySchedule (pairInit s_numWorkThreads exMem)).receiver = .done ∧
    (pairRun s_numWorkThreads s_numRegsPerThread (exWork 1024) (exPeer (2 ^ 22))
      exEarlySchedule (pairInit s_numWorkThreads exMem)).sender[64]? = some .copy ∧
    512 < (exWork 1024).sendItem.size ∧
    (pairRun s_numWorkThreads s_numRegsPerThread (exWork 1024) (exPeer (2 ^ 22))
      exEarlySchedule (pairInit s_numWorkThreads exMem)).dev.mem
        ((exWork 1024).targetBuf + 512) ≠ exMem ((exWork 1024).sendItem.dataBuf + 512) := by
  set_option maxRecDepth 100000 in decide

end QCCL
